import Mathlib

/-!
Verification development for the newsletter-broadcast RSS sync service.

The service periodically synchronizes audiences, broadcasts and (in the
historical variant) sent emails from the Resend API into a key-value blob
store, and serves the data as an RSS feed and per-broadcast HTML pages.

This file shallowly embeds the two cron route variants
(`src/app/api/cron/route.ts`, historical, and the current simplified variant),
the broadcast detail endpoint, and the blob-store write discipline, and proves
the behavioural properties stated in the specification: merge ordering of the
incremental email fetch, rate-limit call spacing, correlator exactness,
audience filtering, pagination modes, idempotence of a repeated sync, and the
error-handling contracts of the endpoints.

Conventions of the embedding:
* Upstream HTTP behaviour is a pure `Upstream` structure: list endpoints carry
  an `Ok` flag (false models a non-2xx response, which the code turns into a
  thrown error), detail endpoints return `Option` (none models non-2xx).
* Every upstream call appends events to a trace: `Ev.call` for the HTTP
  request, `Ev.sleepEv 500` for the `sleep(500)` rate-limit delay.
* The blob store is a function `String → Option BlobVal`; `put` overwrites.
  `BlobVal` is an injectively JSON-serialisable algebra for the stored values,
  so value equality coincides with byte equality of the stored blobs.
* JavaScript string falsiness (`!s` true for `undefined` and `""`) is modelled
  explicitly: optional fields are `Option String` and the empty string is
  treated as falsy where the code tests truthiness.
* The `while` pagination loop is given explicit fuel; `none` models running
  out of fuel (the source loop would still be iterating).
-/

/-- Audience record, from the `Audience` interface of the cron route. -/
structure Audience where
  id : String
  name : String
  created_at : String
deriving DecidableEq, Repr

/-- Broadcast record, from the `Broadcast` interfaces of both cron route
variants (field union; the `from` field is named `fromAddr` because `from` is
a Lean keyword). Optional fields are `Option`. -/
structure Broadcast where
  id : String
  audience_id : String
  name : Option String := none
  subject : Option String := none
  fromAddr : Option String := none
  html : Option String := none
  text : Option String := none
  created_at : String := ""
  sent_at : Option String := none
deriving DecidableEq, Repr

/-- Email record, from the `Email` interface of the historical cron route. -/
structure Email where
  id : String
  fromAddr : String
  subject : String
  html : Option String := none
  created_at : String := ""
deriving DecidableEq, Repr

/-- One page of the paginated `GET /emails` endpoint: `data.data` and
`data.has_more` of the JSON response. -/
structure EmailPage where
  data : List Email
  has_more : Bool
deriving DecidableEq, Repr

/-- A pure model of the upstream Resend API, fixed for a whole sync run
(an "upstream snapshot").  `…Ok = false` models a non-2xx response of a list
endpoint; `none` from a detail endpoint models its non-2xx response. -/
structure Upstream where
  audiencesOk : Bool
  audiences : List Audience
  broadcastsOk : Bool
  broadcasts : List Broadcast
  emailsOk : Option String → Bool
  emailPage : Option String → EmailPage
  broadcastDetail : String → Option Broadcast
  emailDetail : String → Option Email

/-- Trace events of a sync run: an upstream HTTP call, or a `sleep(ms)`. -/
inductive Ev where
  | call : Ev
  | sleepEv : Nat → Ev
deriving DecidableEq, Repr

deriving instance DecidableEq for Except

/-- Values stored in the blob store.  Each constructor corresponds to one
JSON shape the code writes with `JSON.stringify` (or, for `text`, the raw
cursor string); the encoding is injective, so equality of `BlobVal`s is
equality of stored bytes. `info` is the historical `{...broadcastDetails,
html}` spread and `infoMd` the `{...broadcastDetails, content: markdown}`
spread. -/
inductive BlobVal where
  | audiences : List Audience → BlobVal
  | audience : Audience → BlobVal
  | broadcasts : List Broadcast → BlobVal
  | broadcast : Broadcast → BlobVal
  | emails : List Email → BlobVal
  | email : Email → BlobVal
  | text : String → BlobVal
  | info : Broadcast → String → BlobVal
  | infoMd : Broadcast → String → BlobVal
deriving DecidableEq, Repr

/-- The blob store, as a mapping from blob pathname to stored value. -/
def Store := String → Option BlobVal

/-- The empty store (no blob exists): the state before the first ever run. -/
def emptyStore : Store := fun _ => none

/-- `put(key, value, {addRandomSuffix: false, allowOverwrite: true})`:
overwrite-by-key semantics of the Vercel blob `put`. -/
def putB (s : Store) (k : String) (v : BlobVal) : Store :=
  fun k' => if k' = k then some v else s k'

/-- Apply a list of writes in order (earlier entries written first). -/
def putList (s : Store) (w : List (String × BlobVal)) : Store :=
  w.foldl (fun acc p => putB acc p.1 p.2) s

/-- Read a blob by key (`head(key)` followed by `fetch(url)`). -/
def readB (s : Store) (k : String) : Option BlobVal := s k

/-- Key of the per-broadcast enriched info blob: `rss_broadcast_<id>_info`. -/
def infoKey (id : String) : String := "rss_broadcast_" ++ id ++ "_info"

/-- Key of the per-broadcast markdown blob: `rss_broadcast_<id>_info_md`. -/
def mdKey (id : String) : String := "rss_broadcast_" ++ id ++ "_info_md"

/-- Key of the per-broadcast summary blob: `rss_broadcast_<id>`. -/
def bcKey (id : String) : String := "rss_broadcast_" ++ id

/-- Key of the per-audience blob: `rss_audience_<id>`. -/
def audKey (id : String) : String := "rss_audience_" ++ id

/-- Key of the per-email blob: `rss_email_<id>`. -/
def emKey (id : String) : String := "rss_email_" ++ id

/-- The last value written to key `k` by the write list `w`, if any. -/
def lastW (w : List (String × BlobVal)) (k : String) : Option BlobVal :=
  (w.reverse.find? (fun p => p.1 == k)).map Prod.snd

lemma str_eq_of_data {s t : String} (h : s.data = t.data) : s = t := by
  cases s; cases t; simp_all

lemma append_ne (p x q : String) (h : q.data.take p.data.length ≠ p.data) :
    p ++ x ≠ q := by
  intro he
  apply h
  have hd : p.data ++ x.data = q.data := by
    have := congrArg String.data he
    simpa [String.data_append] using this
  rw [← hd, List.take_left]

lemma append_ne_append (p x q y : String) (k : Nat)
    (hk1 : k ≤ p.data.length) (hk2 : k ≤ q.data.length)
    (hne : p.data.take k ≠ q.data.take k) : p ++ x ≠ q ++ y := by
  intro he
  apply hne
  have hd : p.data ++ x.data = q.data ++ y.data := by
    have := congrArg String.data he
    simpa [String.data_append] using this
  have := congrArg (List.take k) hd
  rwa [List.take_append_of_le_length hk1, List.take_append_of_le_length hk2] at this

lemma append_inj_of_append_left {p x y : String} (h : p ++ x = p ++ y) : x = y := by
  have hd : p.data ++ x.data = p.data ++ y.data := by
    have := congrArg String.data h
    simpa [String.data_append] using this
  exact str_eq_of_data (List.append_cancel_left hd)

lemma append_inj_of_append_right {x y s : String} (h : x ++ s = y ++ s) : x = y := by
  have hd : x.data ++ s.data = y.data ++ s.data := by
    have := congrArg String.data h
    simpa [String.data_append] using this
  exact str_eq_of_data (List.append_cancel_right hd)

lemma infoKey_inj {x y : String} (h : infoKey x = infoKey y) : x = y := by
  unfold infoKey at h
  have h1 : x ++ "_info" = y ++ "_info" :=
    append_inj_of_append_left (by simpa [String.append_assoc] using h)
  exact append_inj_of_append_right h1

lemma mdKey_inj {x y : String} (h : mdKey x = mdKey y) : x = y := by
  unfold mdKey at h
  have h1 : x ++ "_info_md" = y ++ "_info_md" :=
    append_inj_of_append_left (by simpa [String.append_assoc] using h)
  exact append_inj_of_append_right h1

lemma infoKey_ne_mdKey (x y : String) : infoKey x ≠ mdKey y := by
  intro h
  unfold infoKey mdKey at h
  have h1 : x ++ "_info" = y ++ "_info_md" :=
    append_inj_of_append_left (by simpa [String.append_assoc] using h)
  have hd : x.data ++ ("_info" : String).data = y.data ++ ("_info_md" : String).data := by
    have := congrArg String.data h1
    simpa [String.data_append] using this
  have hr := congrArg List.reverse hd
  rw [List.reverse_append, List.reverse_append] at hr
  have ht := congrArg (List.take 5) hr
  rw [List.take_append_of_le_length (by decide),
      List.take_append_of_le_length (by decide)] at ht
  exact absurd ht (by decide)

/-! ## Fetch functions (rate-limited API client + paginated fetcher) -/

/-- `fetchAudiences`: `GET /audiences?limit=100`; on 2xx returns
`data.data || []` after `sleep(500)`; on non-2xx throws immediately
(no sleep before the throw in the source). -/
def fetchAudiences (u : Upstream) : Except String (List Audience) × List Ev :=
  if u.audiencesOk then (Except.ok u.audiences, [Ev.call, Ev.sleepEv 500])
  else (Except.error "Failed to fetch audiences", [Ev.call])

/-- `fetchBroadcasts`: `GET /broadcasts?limit=100`; on 2xx sleeps, then
filters `data.data || []` by `audience_id === audienceId`; on non-2xx throws
immediately. -/
def fetchBroadcasts (u : Upstream) (audienceId : String) :
    Except String (List Broadcast) × List Ev :=
  if u.broadcastsOk then
    (Except.ok (u.broadcasts.filter (fun b => b.audience_id == audienceId)),
     [Ev.call, Ev.sleepEv 500])
  else (Except.error "Failed to fetch broadcasts", [Ev.call])

/-- `fetchBroadcastDetails`: `GET /broadcasts/{id}`; sleeps 500ms after the
call in both the success and the non-2xx branch ("Rate limit even on error"),
returning `null` on non-2xx. -/
def fetchBroadcastDetails (u : Upstream) (broadcastId : String) :
    Option Broadcast × List Ev :=
  match u.broadcastDetail broadcastId with
  | none => (none, [Ev.call, Ev.sleepEv 500])
  | some d => (some d, [Ev.call, Ev.sleepEv 500])

/-- `fetchEmailDetails`: `GET /emails/{id}`; sleeps 500ms after the call in
both branches, returning `null` on non-2xx. -/
def fetchEmailDetails (u : Upstream) (emailId : String) :
    Option Email × List Ev :=
  match u.emailDetail emailId with
  | none => (none, [Ev.call, Ev.sleepEv 500])
  | some e => (some e, [Ev.call, Ev.sleepEv 500])

/-- The `while (hasMore)` pagination loop of `fetchEmailsIncrementally`.
`lastEmailId` is the stored cursor (fixed for the whole loop), `currentLastId`
the advancing pagination cursor, `acc` the `newEmails` accumulator.  Per
iteration the source: fetches (a call event); throws on non-2xx (no sleep);
`break`s on an empty page *before* the `sleep(500)`; otherwise concatenates
the page, decides `hasMore` (always false when a stored cursor exists;
otherwise `data.has_more`, advancing `currentLastId` to the page's last id),
and sleeps 500ms at the end of the iteration.  `none` = out of fuel. -/
def emailsLoop (u : Upstream) (lastEmailId : Option String) :
    Nat → Option String → List Email → Option (Except String (List Email) × List Ev)
  | 0, _, _ => none
  | Nat.succ fuel, currentLastId, acc =>
    if u.emailsOk currentLastId then
      match (u.emailPage currentLastId).data with
      | [] => some (Except.ok acc, [Ev.call])
      | e :: es =>
        let acc2 := acc ++ (e :: es)
        if lastEmailId.isSome then
          some (Except.ok acc2, [Ev.call, Ev.sleepEv 500])
        else
          if (u.emailPage currentLastId).has_more then
            match emailsLoop u lastEmailId fuel
                (some ((e :: es).getLast (List.cons_ne_nil e es)).id) acc2 with
            | none => none
            | some (r, tr) => some (r, [Ev.call, Ev.sleepEv 500] ++ tr)
          else
            some (Except.ok acc2, [Ev.call, Ev.sleepEv 500])
    else
      some (Except.error "Failed to fetch emails", [Ev.call])

/-- The email collection previously persisted under `rss_emails`
(`existingEmails`; a missing or malformed blob is caught and treated as
"first run", empty). -/
def storedEmails (s : Store) : List Email :=
  match readB s "rss_emails" with
  | some (BlobVal.emails l) => l
  | _ => []

/-- The cursor previously persisted under `rss_last_email_id`
(`lastEmailId`; a missing blob is caught and treated as "no last ID"). -/
def storedCursor (s : Store) : Option String :=
  match readB s "rss_last_email_id" with
  | some (BlobVal.text c) => some c
  | _ => none

/-- `fetchEmailsIncrementally`: loads `existingEmails` and `lastEmailId` from
storage, runs the pagination loop, and merges
`allEmails = [...newEmails, ...existingEmails]`. -/
def fetchEmailsInc (u : Upstream) (fuel : Nat) (s : Store) :
    Option (Except String (List Email × List Email) × List Ev) :=
  match emailsLoop u (storedCursor s) fuel (storedCursor s) [] with
  | none => none
  | some (Except.error m, tr) => some (Except.error m, tr)
  | some (Except.ok newEmails, tr) =>
      some (Except.ok (newEmails, newEmails ++ storedEmails s), tr)

/-- The first email whose `(subject, from)` tuple equals the given one:
`emails.find(e => e.subject === subject && e.from === from)`. -/
def findMatch (subject fromAddr : String) (emails : List Email) : Option Email :=
  emails.find? (fun e => e.subject == subject && e.fromAddr == fromAddr)

/-- The correlator guard and scan of `matchAndStore`: skip when the broadcast
details lack a truthy `subject` or `from` (absent or empty string), otherwise
linearly scan the email collection for the first `(subject, from)` match. -/
def correlate (d : Broadcast) (emails : List Email) : Option Email :=
  match d.subject, d.fromAddr with
  | some s, some f =>
      if s.isEmpty || f.isEmpty then none else findMatch s f emails
  | _, _ => none

/-- `matchAndStore` (historical): per broadcast, fetch full details (one
call); skip if details are missing or lack subject/from; correlate against
the in-memory email collection; on a match fetch the email details (one
call); skip if they are missing or lack truthy html; otherwise write the
`_info` blob (`{...broadcastDetails, html}`) and the `_info_md` blob
(`{...broadcastDetails, content: turndown(html)}`).  Returns the writes (in
order) and the call/sleep trace. -/
def matchAndStore (u : Upstream) (td : String → String) :
    List Broadcast → List Email → List (String × BlobVal) × List Ev
  | [], _ => ([], [])
  | b :: rest, emails =>
    let dr := fetchBroadcastDetails u b.id
    let r := matchAndStore u td rest emails
    match dr.1 with
    | none => (r.1, dr.2 ++ r.2)
    | some d =>
      match correlate d emails with
      | none => (r.1, dr.2 ++ r.2)
      | some m =>
        let er := fetchEmailDetails u m.id
        match er.1 with
        | none => (r.1, dr.2 ++ er.2 ++ r.2)
        | some ed =>
          match ed.html with
          | none => (r.1, dr.2 ++ er.2 ++ r.2)
          | some h =>
            if h.isEmpty then (r.1, dr.2 ++ er.2 ++ r.2)
            else
              ((infoKey b.id, BlobVal.info d h) ::
               (mdKey b.id, BlobVal.infoMd d (td h)) :: r.1,
               dr.2 ++ er.2 ++ r.2)

/-- `fetchAndStoreBroadcastsWithHtml` (current variant): per broadcast, fetch
full details (one call); skip if missing or lacking truthy html; otherwise
write the `_info` blob (the details themselves, html inline) and the
`_info_md` blob. -/
def fetchAndStoreBroadcastsWithHtml (u : Upstream) (td : String → String) :
    List Broadcast → List (String × BlobVal) × List Ev
  | [] => ([], [])
  | b :: rest =>
    let dr := fetchBroadcastDetails u b.id
    let r := fetchAndStoreBroadcastsWithHtml u td rest
    match dr.1 with
    | none => (r.1, dr.2 ++ r.2)
    | some d =>
      match d.html with
      | none => (r.1, dr.2 ++ r.2)
      | some h =>
        if h.isEmpty then (r.1, dr.2 ++ r.2)
        else
          ((infoKey b.id, BlobVal.broadcast d) ::
           (mdKey b.id, BlobVal.infoMd d (td h)) :: r.1,
           dr.2 ++ r.2)

/-! ## Environment, auth and the two cron route orchestrations -/

/-- The environment variables the routes read.  `none` models an unset
variable (JavaScript `undefined`). -/
structure Env where
  cronSecret : Option String
  apiKey : Option String
  audienceId : Option String

/-- JavaScript template-literal interpolation of a possibly-undefined
environment variable: an unset variable renders as the literal string
`"undefined"`. -/
def envStr : Option String → String
  | some s => s
  | none => "undefined"

/-- JavaScript truthiness of a string environment variable: falsy when the
variable is unset or the empty string. -/
def truthy : Option String → Bool
  | some s => !s.isEmpty
  | none => false

/-- Outcome of a cron trigger request. -/
inductive SyncResult where
  | unauthorized : SyncResult
  | configError : SyncResult
  | success : Nat → Nat → Nat → Nat → SyncResult
  | successCurrent : Nat → Nat → SyncResult
  | failure : String → SyncResult
deriving DecidableEq, Repr

/-- The writes performed by step 1 of the cron `GET`: the `rss_audiences`
collection blob followed by one `rss_audience_<id>` blob per audience. -/
def audWrites (auds : List Audience) : List (String × BlobVal) :=
  ("rss_audiences", BlobVal.audiences auds) ::
    auds.map (fun a => (audKey a.id, BlobVal.audience a))

/-- The writes performed by step 2 of the cron `GET`: the `rss_broadcasts`
collection blob followed by one `rss_broadcast_<id>` blob per broadcast. -/
def bcWrites (bcs : List Broadcast) : List (String × BlobVal) :=
  ("rss_broadcasts", BlobVal.broadcasts bcs) ::
    bcs.map (fun b => (bcKey b.id, BlobVal.broadcast b))

/-- The writes performed by step 3 of the historical cron `GET`: the merged
`rss_emails` collection, one `rss_email_<id>` blob per *new* email, and —
only when the merged collection is non-empty — the `rss_last_email_id`
cursor set to `allEmails[0].id`. -/
def emailWrites (newEmails allEmails : List Email) : List (String × BlobVal) :=
  ("rss_emails", BlobVal.emails allEmails) ::
    (newEmails.map (fun e => (emKey e.id, BlobVal.email e)) ++
     (match allEmails with
      | [] => []
      | e :: _ => [("rss_last_email_id", BlobVal.text e.id)]))

/-- The authorization check of both cron routes:
`authHeader !== ``Bearer ${process.env.CRON_SECRET}``` (a missing header is
`null` and never equal to the template string). -/
def authOk (env : Env) (authHeader : Option String) : Bool :=
  authHeader == some ("Bearer " ++ envStr env.cronSecret)

/-- The historical cron route `GET` (src/app/api/cron/route.ts): auth check,
config check, fetch-and-store audiences, broadcasts, emails (incrementally),
then `matchAndStore`.  Returns the response, the blob writes in order, and
the upstream call/sleep trace; `none` = pagination fuel exhausted. -/
def runCron (env : Env) (authHeader : Option String) (u : Upstream)
    (td : String → String) (fuel : Nat) (store0 : Store) :
    Option (SyncResult × List (String × BlobVal) × List Ev) :=
  if !(authOk env authHeader) then some (SyncResult.unauthorized, [], [])
  else if !(truthy env.apiKey && truthy env.audienceId) then
    some (SyncResult.configError, [], [])
  else
    let aid := envStr env.audienceId
    match fetchAudiences u with
    | (Except.error msg, trA) => some (SyncResult.failure msg, [], trA)
    | (Except.ok auds, trA) =>
      let wA := audWrites auds
      match fetchBroadcasts u aid with
      | (Except.error msg, trB) => some (SyncResult.failure msg, wA, trA ++ trB)
      | (Except.ok bcs, trB) =>
        let wB := bcWrites bcs
        let storeMid := putList store0 (wA ++ wB)
        match fetchEmailsInc u fuel storeMid with
        | none => none
        | some (Except.error msg, trE) =>
            some (SyncResult.failure msg, wA ++ wB, trA ++ trB ++ trE)
        | some (Except.ok (newEmails, allEmails), trE) =>
          let wE := emailWrites newEmails allEmails
          let mr := matchAndStore u td bcs newEmails
          some (SyncResult.success auds.length bcs.length
                  newEmails.length allEmails.length,
                wA ++ wB ++ wE ++ mr.1, trA ++ trB ++ trE ++ mr.2)

/-- The current cron route `GET` (simplified variant): auth check, config
check, fetch-and-store audiences and broadcasts, then
`fetchAndStoreBroadcastsWithHtml`.  It reads nothing from storage, so it
returns the response, writes and trace directly. -/
def runCronCurrent (env : Env) (authHeader : Option String) (u : Upstream)
    (td : String → String) : SyncResult × List (String × BlobVal) × List Ev :=
  if !(authOk env authHeader) then (SyncResult.unauthorized, [], [])
  else if !(truthy env.apiKey && truthy env.audienceId) then
    (SyncResult.configError, [], [])
  else
    let aid := envStr env.audienceId
    match fetchAudiences u with
    | (Except.error msg, trA) => (SyncResult.failure msg, [], trA)
    | (Except.ok auds, trA) =>
      let wA := audWrites auds
      match fetchBroadcasts u aid with
      | (Except.error msg, trB) => (SyncResult.failure msg, wA, trA ++ trB)
      | (Except.ok bcs, trB) =>
        let wB := bcWrites bcs
        let hr := fetchAndStoreBroadcastsWithHtml u td bcs
        (SyncResult.successCurrent auds.length bcs.length,
         wA ++ wB ++ hr.1, trA ++ trB ++ hr.2)

/-! ## The broadcast detail endpoint -/

/-- Response of the broadcast detail endpoint. -/
inductive HttpResp where
  | notFound : String → HttpResp
  | okHtml : String → String → HttpResp
  | serverError : HttpResp
deriving DecidableEq, Repr

/-- `JSON.parse` of a stored blob followed by reading its `html` field:
`none` models a parse failure (the raw cursor string is not JSON), and
`some h?` a parsed object whose `html` field is `h?`. -/
def dataHtml : BlobVal → Option (Option String)
  | BlobVal.text _ => none
  | BlobVal.info _ h => some (some h)
  | BlobVal.infoMd b _ => some b.html
  | BlobVal.broadcast b => some b.html
  | BlobVal.audience _ => some none
  | BlobVal.audiences _ => some none
  | BlobVal.broadcasts _ => some none
  | BlobVal.emails _ => some none
  | BlobVal.email e => some e.html

/-- The broadcast detail endpoint `GET` (src/app/api/broadcast/[id]): looks
up `rss_broadcast_<id>_info`; 404 "Broadcast not found" when absent; 404
"HTML content not available" when the parsed record has no truthy `html`
field; otherwise 200 with the html body and `Content-Type: text/html`.  A
thrown error (e.g. JSON parse failure) yields 500. -/
def broadcastDetailRoute (store : Store) (id : String) : HttpResp :=
  match readB store (infoKey id) with
  | none => HttpResp.notFound "Broadcast not found"
  | some v =>
    match dataHtml v with
    | none => HttpResp.serverError
    | some none => HttpResp.notFound "HTML content not available"
    | some (some h) =>
      if h.isEmpty then HttpResp.notFound "HTML content not available"
      else HttpResp.okHtml h "text/html"

/-! ## Rate-limit spacing predicate over traces -/

/-- Scan a trace keeping the flag "a call has happened with no `sleep(500)`
yet since".  A further call while the flag is set is a spacing violation
(`none`); otherwise the final flag is returned. -/
def spacedGo : Bool → List Ev → Option Bool
  | b, [] => some b
  | b, Ev.call :: t => if b then none else spacedGo true t
  | b, Ev.sleepEv ms :: t => spacedGo (b && !(ms == 500)) t

/-- A trace respects the rate-limit spacing when no two calls occur without
a `sleep(500)` between them (pending sleep at the end of the trace is fine:
no further call follows). -/
def okSpacing (t : List Ev) : Bool :=
  (spacedGo false t).isSome

/-! ## Store and write-list lemmas -/

lemma putList_append (s : Store) (w₁ w₂ : List (String × BlobVal)) :
    putList s (w₁ ++ w₂) = putList (putList s w₁) w₂ := by
  simp [putList, List.foldl_append]

lemma lastW_nil (k : String) : lastW [] k = none := rfl

lemma lastW_cons (p : String × BlobVal) (t : List (String × BlobVal)) (k : String) :
    lastW (p :: t) k = (lastW t k).or (if p.1 == k then some p.2 else none) := by
  simp only [lastW, List.reverse_cons, List.find?_append]
  cases h : (t.reverse.find? (fun q => q.1 == k)) with
  | none =>
    simp only [Option.or, Option.map]
    by_cases hk : p.1 == k <;> simp [List.find?, hk]
  | some q =>
    simp [Option.or]

lemma lastW_append (w₁ w₂ : List (String × BlobVal)) (k : String) :
    lastW (w₁ ++ w₂) k = (lastW w₂ k).or (lastW w₁ k) := by
  simp only [lastW, List.reverse_append, List.find?_append]
  cases h : (w₂.reverse.find? (fun q => q.1 == k)) <;> simp [Option.or]

lemma putList_apply (w : List (String × BlobVal)) (s : Store) (k : String) :
    putList s w k = (lastW w k).or (s k) := by
  induction w generalizing s with
  | nil => simp [putList, lastW, Option.or]
  | cons p t ih =>
    show putList (putB s p.1 p.2) t k = _
    rw [ih, lastW_cons]
    cases h : lastW t k with
    | some v => simp [Option.or]
    | none =>
      simp only [Option.or]
      by_cases hk : p.1 == k
      · have : k = p.1 := (beq_iff_eq.mp hk).symm
        simp [putB, hk, this]
      · have : ¬ (k = p.1) := fun he => hk (beq_iff_eq.mpr he.symm)
        simp [putB, hk, this]

lemma putList_self (s : Store) (w : List (String × BlobVal)) :
    putList (putList s w) w = putList s w := by
  funext k
  rw [putList_apply, putList_apply]
  cases h : lastW w k <;> simp [Option.or]

lemma lastW_eq_none (w : List (String × BlobVal)) (k : String)
    (h : ∀ p ∈ w, p.1 ≠ k) : lastW w k = none := by
  have : w.reverse.find? (fun p => p.1 == k) = none := by
    rw [List.find?_eq_none]
    intro p hp
    simp only [beq_iff_eq]
    exact h p (List.mem_reverse.mp hp)
  simp [lastW, this]

lemma putList_apply_none (w : List (String × BlobVal)) (s : Store) (k : String)
    (h : ∀ p ∈ w, p.1 ≠ k) : putList s w k = s k := by
  rw [putList_apply, lastW_eq_none w k h, Option.or]

lemma infoKey_as_append (x : String) :
    infoKey x = "rss_broadcast_" ++ (x ++ "_info") := by
  simp [infoKey, String.append_assoc]

lemma mdKey_as_append (x : String) :
    mdKey x = "rss_broadcast_" ++ (x ++ "_info_md") := by
  simp [mdKey, String.append_assoc]

/-- Keys written by `matchAndStore` are info/markdown keys of listed
broadcasts. -/
lemma matchAndStore_keys (u : Upstream) (td : String → String)
    (bcs : List Broadcast) (emails : List Email) :
    ∀ p ∈ (matchAndStore u td bcs emails).1,
      ∃ b ∈ bcs, p.1 = infoKey b.id ∨ p.1 = mdKey b.id := by
  induction bcs with
  | nil => intro p hp; simp [matchAndStore] at hp
  | cons b rest ih =>
    intro p hp
    simp only [matchAndStore] at hp
    rcases hd : (fetchBroadcastDetails u b.id).1 with _ | d
    · simp only [hd] at hp
      obtain ⟨b', hb', ho⟩ := ih p hp
      exact ⟨b', List.mem_cons_of_mem b hb', ho⟩
    · simp only [hd] at hp
      rcases hc : correlate d emails with _ | m
      · simp only [hc] at hp
        obtain ⟨b', hb', ho⟩ := ih p hp
        exact ⟨b', List.mem_cons_of_mem b hb', ho⟩
      · simp only [hc] at hp
        rcases he : (fetchEmailDetails u m.id).1 with _ | ed
        · simp only [he] at hp
          obtain ⟨b', hb', ho⟩ := ih p hp
          exact ⟨b', List.mem_cons_of_mem b hb', ho⟩
        · simp only [he] at hp
          rcases hh : ed.html with _ | h
          · simp only [hh] at hp
            obtain ⟨b', hb', ho⟩ := ih p hp
            exact ⟨b', List.mem_cons_of_mem b hb', ho⟩
          · simp only [hh] at hp
            by_cases hemp : h.isEmpty
            · simp only [hemp, if_pos] at hp
              obtain ⟨b', hb', ho⟩ := ih p hp
              exact ⟨b', List.mem_cons_of_mem b hb', ho⟩
            · simp only [hemp, Bool.false_eq_true, if_neg, not_false_iff,
                List.mem_cons] at hp
              rcases hp with hp | hp | hp
              · exact ⟨b, List.mem_cons_self b rest, Or.inl (by rw [hp])⟩
              · exact ⟨b, List.mem_cons_self b rest, Or.inr (by rw [hp])⟩
              · obtain ⟨b', hb', ho⟩ := ih p hp
                exact ⟨b', List.mem_cons_of_mem b hb', ho⟩

/-- Keys written by `fetchAndStoreBroadcastsWithHtml` are info/markdown keys
of listed broadcasts. -/
lemma storeWithHtml_keys (u : Upstream) (td : String → String)
    (bcs : List Broadcast) :
    ∀ p ∈ (fetchAndStoreBroadcastsWithHtml u td bcs).1,
      ∃ b ∈ bcs, p.1 = infoKey b.id ∨ p.1 = mdKey b.id := by
  induction bcs with
  | nil => intro p hp; simp [fetchAndStoreBroadcastsWithHtml] at hp
  | cons b rest ih =>
    intro p hp
    simp only [fetchAndStoreBroadcastsWithHtml] at hp
    rcases hd : (fetchBroadcastDetails u b.id).1 with _ | d
    · simp only [hd] at hp
      obtain ⟨b', hb', ho⟩ := ih p hp
      exact ⟨b', List.mem_cons_of_mem b hb', ho⟩
    · simp only [hd] at hp
      rcases hh : d.html with _ | h
      · simp only [hh] at hp
        obtain ⟨b', hb', ho⟩ := ih p hp
        exact ⟨b', List.mem_cons_of_mem b hb', ho⟩
      · simp only [hh] at hp
        by_cases hemp : h.isEmpty
        · simp only [hemp, if_pos] at hp
          obtain ⟨b', hb', ho⟩ := ih p hp
          exact ⟨b', List.mem_cons_of_mem b hb', ho⟩
        · simp only [hemp, Bool.false_eq_true, if_neg, not_false_iff,
            List.mem_cons] at hp
          rcases hp with hp | hp | hp
          · exact ⟨b, List.mem_cons_self b rest, Or.inl (by rw [hp])⟩
          · exact ⟨b, List.mem_cons_self b rest, Or.inr (by rw [hp])⟩
          · obtain ⟨b', hb', ho⟩ := ih p hp
            exact ⟨b', List.mem_cons_of_mem b hb', ho⟩

/-! ## Generic first-match characterisation of `List.find?` -/

lemma find?_eq_some_first {α : Type} (p : α → Bool) (l : List α) (x : α) :
    l.find? p = some x ↔
      ∃ l₁ l₂, l = l₁ ++ x :: l₂ ∧ p x = true ∧ ∀ y ∈ l₁, p y = false := by
  induction l with
  | nil =>
    constructor
    · intro h; simp at h
    · rintro ⟨l₁, l₂, hl, -, -⟩
      exact absurd hl (by simp)
  | cons a t ih =>
    by_cases hpa : p a
    · rw [List.find?_cons_of_pos _ hpa]
      constructor
      · rintro h
        injection h with h
        exact ⟨[], t, by rw [h, List.nil_append], by rw [← h]; exact hpa, by simp⟩
      · rintro ⟨l₁, l₂, hl, hpx, hall⟩
        cases l₁ with
        | nil =>
          simp only [List.nil_append, List.cons.injEq] at hl
          rw [hl.1]
        | cons b l₁' =>
          simp only [List.cons_append, List.cons.injEq] at hl
          have hb : p b = false := hall b (List.mem_cons_self b l₁')
          rw [← hl.1, hpa] at hb
          exact absurd hb (by simp)
    · rw [List.find?_cons_of_neg _ hpa]
      rw [ih]
      constructor
      · rintro ⟨l₁, l₂, hl, hpx, hall⟩
        refine ⟨a :: l₁, l₂, by rw [hl, List.cons_append], hpx, ?_⟩
        intro y hy
        rcases List.mem_cons.mp hy with hy | hy
        · rw [hy]; exact Bool.eq_false_iff.mpr hpa
        · exact hall y hy
      · rintro ⟨l₁, l₂, hl, hpx, hall⟩
        cases l₁ with
        | nil =>
          simp only [List.nil_append, List.cons.injEq] at hl
          rw [← hl.1] at hpx
          exact absurd hpx hpa
        | cons b l₁' =>
          simp only [List.cons_append, List.cons.injEq] at hl
          refine ⟨l₁', l₂, hl.2, hpx, ?_⟩
          intro y hy
          exact hall y (List.mem_cons_of_mem b hy)

/-! ## C3: correlator exactness -/

/-- C3.  Historical correlator: for a broadcast whose details carry a truthy
`subject` and `from`, the correlator selects an email iff that email's
`(subject, from)` tuple equals the broadcast's, and the selected email is the
first such email in the order of the email collection; it selects nothing iff
no email in the collection carries the tuple. -/
theorem correlator_exactness_c3 (d : Broadcast) (emails : List Email)
    (subj frm : String)
    (hs : d.subject = some subj) (hf : d.fromAddr = some frm)
    (hse : subj.isEmpty = false) (hfe : frm.isEmpty = false) :
    (∀ e, correlate d emails = some e ↔
      ∃ l₁ l₂, emails = l₁ ++ e :: l₂ ∧ e.subject = subj ∧ e.fromAddr = frm ∧
        ∀ e' ∈ l₁, ¬(e'.subject = subj ∧ e'.fromAddr = frm)) ∧
    (correlate d emails = none ↔
      ∀ e ∈ emails, ¬(e.subject = subj ∧ e.fromAddr = frm)) := by
  have hcor : correlate d emails = findMatch subj frm emails := by
    simp [correlate, hs, hf, hse, hfe]
  constructor
  · intro e
    rw [hcor]
    unfold findMatch
    rw [find?_eq_some_first]
    constructor
    · rintro ⟨l₁, l₂, hl, hpx, hall⟩
      simp only [Bool.and_eq_true, beq_iff_eq] at hpx
      refine ⟨l₁, l₂, hl, hpx.1, hpx.2, ?_⟩
      intro e' he' hc
      have := hall e' he'
      simp [hc.1, hc.2] at this
    · rintro ⟨l₁, l₂, hl, h1, h2, hall⟩
      refine ⟨l₁, l₂, hl, by simp [h1, h2], ?_⟩
      intro y hy
      by_contra hb
      have hb' : (y.subject == subj && y.fromAddr == frm) = true :=
        Bool.not_eq_false _ ▸ hb
      simp only [Bool.and_eq_true, beq_iff_eq] at hb'
      exact hall y hy ⟨hb'.1, hb'.2⟩
  · rw [hcor]
    unfold findMatch
    rw [List.find?_eq_none]
    constructor
    · intro hne e he hc
      have := hne e he
      simp [hc.1, hc.2] at this
    · intro hno e he
      by_contra hb
      have hb' : (e.subject == subj && e.fromAddr == frm) = true :=
        Bool.not_eq_false _ ▸ hb
      simp only [Bool.and_eq_true, beq_iff_eq] at hb'
      exact hno e he ⟨hb'.1, hb'.2⟩

/-- Witness for C3 at a concrete collision: two emails share the tuple
`("S", "F")` and the first one in collection order is selected. -/
theorem correlator_exactness_c3_witness :
    correlate
      { id := "b1", audience_id := "a1", subject := some "S",
        fromAddr := some "F" }
      [{ id := "e1", fromAddr := "F", subject := "S" },
       { id := "e2", fromAddr := "F", subject := "S" }] =
      some { id := "e1", fromAddr := "F", subject := "S" } :=
  ((correlator_exactness_c3
      { id := "b1", audience_id := "a1", subject := some "S",
        fromAddr := some "F" }
      [{ id := "e1", fromAddr := "F", subject := "S" },
       { id := "e2", fromAddr := "F", subject := "S" }]
      "S" "F" rfl rfl rfl rfl).1
    { id := "e1", fromAddr := "F", subject := "S" }).mpr
    ⟨[], [{ id := "e2", fromAddr := "F", subject := "S" }], rfl, rfl, rfl,
      by simp⟩

/-! ## C8: failed authorization is side-effect free -/

/-- C8.  When the Authorization header does not match
`Bearer ${CRON_SECRET}`, both cron trigger variants return the 401 response,
perform no blob writes (the final store is the initial store) and make no
upstream calls (the trace is empty). -/
theorem auth_failfast_c8 (env : Env) (authHeader : Option String)
    (u : Upstream) (td : String → String) (fuel : Nat) (store0 : Store)
    (h : authOk env authHeader = false) :
    runCron env authHeader u td fuel store0 =
      some (SyncResult.unauthorized, [], []) ∧
    runCronCurrent env authHeader u td = (SyncResult.unauthorized, [], []) ∧
    putList store0 [] = store0 := by
  refine ⟨?_, ?_, rfl⟩
  · simp [runCron, h]
  · simp [runCronCurrent, h]

/-- Witness for C8: a request with no Authorization header against a
configured secret is rejected with no writes and no calls. -/
theorem auth_failfast_c8_witness :
    runCron { cronSecret := some "s3cr3t", apiKey := some "k",
              audienceId := some "a" } none
      { audiencesOk := true, audiences := [], broadcastsOk := true,
        broadcasts := [], emailsOk := fun _ => true,
        emailPage := fun _ => { data := [], has_more := false },
        broadcastDetail := fun _ => none, emailDetail := fun _ => none }
      id 5 emptyStore = some (SyncResult.unauthorized, [], []) :=
  (auth_failfast_c8 _ _ _ _ _ _ (by decide)).1

/-! ## C9: unset CRON_SECRET accepts the literal header "Bearer undefined" -/

/-- C9.  When `CRON_SECRET` is unset, the auth comparison is against the
template-interpolated literal `"Bearer undefined"`, so a request carrying
exactly that Authorization header passes the auth check in both trigger
variants: the run never yields the 401 response, and once the configuration
check passes the sync proceeds to make upstream calls. -/
theorem undefined_secret_c9 (env : Env) (u : Upstream) (td : String → String)
    (fuel : Nat) (store0 : Store) (hcs : env.cronSecret = none) :
    authOk env (some "Bearer undefined") = true ∧
    (∀ r w tr,
      runCron env (some "Bearer undefined") u td fuel store0 = some (r, w, tr) →
        r ≠ SyncResult.unauthorized ∧
        ((truthy env.apiKey && truthy env.audienceId) = true → Ev.call ∈ tr)) ∧
    (runCronCurrent env (some "Bearer undefined") u td).1 ≠
      SyncResult.unauthorized := by
  have ha : authOk env (some "Bearer undefined") = true := by
    rw [authOk, hcs]
    decide
  refine ⟨ha, ?_, ?_⟩
  · intro r w tr h
    rw [runCron, ha] at h
    simp only [Bool.not_true, Bool.false_eq_true, if_false] at h
    by_cases hcfg : (truthy env.apiKey && truthy env.audienceId) = true
    · rw [hcfg] at h
      simp only [Bool.not_true, Bool.false_eq_true, if_false] at h
      rcases hA : fetchAudiences u with ⟨eA, trA⟩
      have htrA : Ev.call ∈ trA := by
        rw [fetchAudiences] at hA
        by_cases hok : u.audiencesOk <;> simp [hok] at hA <;>
          simp [← hA.2, List.mem_cons]
      simp only [hA] at h
      cases eA with
      | error msg =>
        simp only [Option.some.injEq, Prod.mk.injEq] at h
        refine ⟨(by rw [← h.1]; intro hc; cases hc), fun _ => ?_⟩
        rw [← h.2.2]
        exact htrA
      | ok auds =>
        rcases hB : fetchBroadcasts u (envStr env.audienceId) with ⟨eB, trB⟩
        simp only [hB] at h
        cases eB with
        | error msg =>
          simp only [Option.some.injEq, Prod.mk.injEq] at h
          refine ⟨(by rw [← h.1]; intro hc; cases hc), fun _ => ?_⟩
          rw [← h.2.2]
          exact List.mem_append_left _ htrA
        | ok bcs =>
          rcases hE : fetchEmailsInc u fuel
              (putList store0 (audWrites auds ++ bcWrites bcs)) with _ | ⟨eE, trE⟩
          · simp only [hE] at h
            cases h
          · simp only [hE] at h
            cases eE with
            | error msg =>
              simp only [Option.some.injEq, Prod.mk.injEq] at h
              refine ⟨(by rw [← h.1]; intro hc; cases hc), fun _ => ?_⟩
              rw [← h.2.2]
              exact List.mem_append_left _ (List.mem_append_left _ htrA)
            | ok pr =>
              rcases pr with ⟨newEmails, allEmails⟩
              simp only [Option.some.injEq, Prod.mk.injEq] at h
              refine ⟨(by rw [← h.1]; intro hc; cases hc), fun _ => ?_⟩
              rw [← h.2.2]
              exact List.mem_append_left _
                (List.mem_append_left _ (List.mem_append_left _ htrA))
    · have hcfg' : (truthy env.apiKey && truthy env.audienceId) = false :=
        Bool.not_eq_true _ ▸ hcfg
      rw [hcfg'] at h
      simp only [Bool.not_false, if_true, Option.some.injEq, Prod.mk.injEq] at h
      exact ⟨(by rw [← h.1]; intro hc; cases hc), fun hc => absurd hc hcfg⟩
  · rw [runCronCurrent, ha]
    simp only [Bool.not_true, Bool.false_eq_true, if_false]
    by_cases hcfg : (truthy env.apiKey && truthy env.audienceId) = true
    · rw [hcfg]
      simp only [Bool.not_true, Bool.false_eq_true, if_false]
      rcases hA : fetchAudiences u with ⟨eA, trA⟩
      cases eA with
      | error msg => simp only [hA]; intro hc; cases hc
      | ok auds =>
        rcases hB : fetchBroadcasts u (envStr env.audienceId) with ⟨eB, trB⟩
        cases eB with
        | error msg => simp only [hA, hB]; intro hc; cases hc
        | ok bcs => simp only [hA, hB]; intro hc; cases hc
    · have hcfg' : (truthy env.apiKey && truthy env.audienceId) = false :=
        Bool.not_eq_true _ ▸ hcfg
      rw [hcfg']
      simp only [Bool.not_false, if_true]
      intro hc; cases hc

/-- Witness for C9: with the secret unset, the header "Bearer undefined"
passes the auth comparison. -/
theorem undefined_secret_c9_witness :
    authOk { cronSecret := none, apiKey := some "k",
             audienceId := some "a" } (some "Bearer undefined") = true :=
  (undefined_secret_c9
    { cronSecret := none, apiKey := some "k", audienceId := some "a" }
    { audiencesOk := true, audiences := [], broadcastsOk := true,
      broadcasts := [], emailsOk := fun _ => true,
      emailPage := fun _ => { data := [], has_more := false },
      broadcastDetail := fun _ => none, emailDetail := fun _ => none }
    id 5 emptyStore rfl).1

/-! ## C10: the broadcast detail endpoint's 404 and success conditions -/

/-- C10.  The detail endpoint 404s both when no blob is stored under the
requested id's info key ("Broadcast not found") and when a stored record
parses but carries no truthy `html` field ("HTML content not available");
and it serves a body with `Content-Type: text/html` only when the stored
record's `html` field is present (and non-empty), the body being exactly
that stored html. -/
theorem detail_route_c10 (store : Store) (id : String) :
    (readB store (infoKey id) = none →
      broadcastDetailRoute store id = HttpResp.notFound "Broadcast not found") ∧
    (∀ v, readB store (infoKey id) = some v → dataHtml v = some none →
      broadcastDetailRoute store id =
        HttpResp.notFound "HTML content not available") ∧
    (∀ h ct, broadcastDetailRoute store id = HttpResp.okHtml h ct →
      ct = "text/html" ∧ h.isEmpty = false ∧
      ∃ v, readB store (infoKey id) = some v ∧ dataHtml v = some (some h)) := by
  refine ⟨?_, ?_, ?_⟩
  · intro h
    rw [broadcastDetailRoute, h]
  · intro v hv hd
    rw [broadcastDetailRoute]
    simp only [hv, hd]
  · intro h ct hr
    rw [broadcastDetailRoute] at hr
    rcases hv : readB store (infoKey id) with _ | v
    · rw [hv] at hr; cases hr
    · simp only [hv] at hr
      rcases hd : dataHtml v with _ | ho
      · simp only [hd] at hr; cases hr
      · simp only [hd] at hr
        cases ho with
        | none => cases hr
        | some h' =>
          by_cases hemp : h'.isEmpty
          · simp only [hemp, if_pos] at hr; cases hr
          · simp only [hemp, Bool.false_eq_true, if_neg, not_false_iff] at hr
            injection hr with h1 h2
            refine ⟨h2.symm, ?_, v, rfl, ?_⟩
            · rw [← h1]; exact Bool.not_eq_true _ ▸ hemp
            · rw [← h1]
              exact hd

/-- Witness for C10: an absent record 404s with "Broadcast not found"; a
stored broadcast record without html 404s with "HTML content not
available". -/
theorem detail_route_c10_witness :
    broadcastDetailRoute emptyStore "b1" =
      HttpResp.notFound "Broadcast not found" ∧
    broadcastDetailRoute
      (putB emptyStore (infoKey "b1")
        (BlobVal.broadcast { id := "b1", audience_id := "a1" })) "b1" =
      HttpResp.notFound "HTML content not available" :=
  ⟨(detail_route_c10 emptyStore "b1").1 rfl,
   (detail_route_c10
      (putB emptyStore (infoKey "b1")
        (BlobVal.broadcast { id := "b1", audience_id := "a1" })) "b1").2.1
      (BlobVal.broadcast { id := "b1", audience_id := "a1" })
      (by simp [readB, putB]) rfl⟩

/-! ## C5: incremental vs full fetch modes -/

/-- Number of upstream calls in a trace. -/
def countCalls (t : List Ev) : Nat :=
  t.countP (fun e => match e with | Ev.call => true | Ev.sleepEv _ => false)

/-- Spec-side definition, following the specification's wording for the
full-fetch mode: "paginate until `hasMore` is false or the page is empty;
concatenate all pages in reverse-chronological order as returned", the next
page being anchored at the last item of the previous page.  Returns the list
of pages; `none` = more than `fuel` pages. -/
def specFullFetchPages (u : Upstream) : Nat → Option String → Option (List (List Email))
  | 0, _ => none
  | Nat.succ fuel, c =>
    match (u.emailPage c).data with
    | [] => some []
    | e :: es =>
      if (u.emailPage c).has_more then
        match specFullFetchPages u fuel
            (some ((e :: es).getLast (List.cons_ne_nil e es)).id) with
        | none => none
        | some ps => some ((e :: es) :: ps)
      else some [e :: es]

lemma emailsLoop_full (u : Upstream) (hokAll : ∀ c', u.emailsOk c' = true) :
    ∀ fuel (c : Option String) (acc : List Email) (ps : List (List Email)),
      specFullFetchPages u fuel c = some ps →
      (emailsLoop u none fuel c acc).map Prod.fst =
        some (Except.ok (acc ++ ps.flatten)) := by
  intro fuel
  induction fuel with
  | zero => intro c acc ps hspec; cases hspec
  | succ fuel ih =>
    intro c acc ps hspec
    rw [specFullFetchPages] at hspec
    rw [emailsLoop, hokAll c]
    simp only [if_true]
    rcases hd : (u.emailPage c).data with _ | ⟨e, es⟩
    · simp only [hd] at hspec
      injection hspec with hps
      simp [hd, ← hps]
    · simp only [hd] at hspec
      simp only [hd]
      by_cases hm : (u.emailPage c).has_more
      · simp only [hm, if_true] at hspec
        simp only [Option.isSome_none, Bool.false_eq_true, if_false, hm, if_true]
        rcases hrec : specFullFetchPages u fuel
            (some ((e :: es).getLast (List.cons_ne_nil e es)).id) with _ | ps2
        · simp only [hrec] at hspec
          cases hspec
        · simp only [hrec] at hspec
          injection hspec with hps
          have hih := ih _ (acc ++ (e :: es)) ps2 hrec
          rcases hloop : emailsLoop u none fuel
              (some ((e :: es).getLast (List.cons_ne_nil e es)).id)
              (acc ++ (e :: es)) with _ | ⟨r, tr⟩
          · rw [hloop] at hih; cases hih
          · rw [hloop] at hih
            simp at hih
            simp [hloop, hih, ← hps, List.append_assoc]
      · have hm2 : (u.emailPage c).has_more = false := Bool.not_eq_true _ ▸ hm
        simp only [hm2, Bool.false_eq_true, if_false] at hspec
        injection hspec with hps
        simp only [Option.isSome_none, Bool.false_eq_true, if_false, hm2]
        rw [← hps]
        simp [List.append_assoc]

/-- C5.  Email fetch modes.  Incremental (a stored cursor `c` exists):
exactly one page is requested, anchored at `c`, the loop stops and the
result is that single page's items.  Full (no stored cursor): the loop
paginates following the specification's stop conditions (empty page or
`has_more` false) and returns the concatenation of the pages in order. -/
theorem email_fetch_modes_c5 (u : Upstream) (c : String) (fuel : Nat)
    (hokAll : ∀ c', u.emailsOk c' = true) (ps : List (List Email))
    (hspec : specFullFetchPages u fuel none = some ps) :
    ((emailsLoop u (some c) (fuel + 1) (some c) []).map Prod.fst =
        some (Except.ok (u.emailPage (some c)).data) ∧
      (emailsLoop u (some c) (fuel + 1) (some c) []).map
          (fun r => countCalls r.2) = some 1) ∧
    (emailsLoop u none fuel none []).map Prod.fst =
      some (Except.ok ps.flatten) := by
  refine ⟨⟨?_, ?_⟩, ?_⟩
  · rw [emailsLoop, hokAll (some c)]
    simp only [if_true]
    rcases hd : (u.emailPage (some c)).data with _ | ⟨e, es⟩
    · simp [hd]
    · simp [hd]
  · rw [emailsLoop, hokAll (some c)]
    simp only [if_true]
    rcases hd : (u.emailPage (some c)).data with _ | ⟨e, es⟩
    · simp [hd, countCalls]
    · simp [hd, countCalls, List.countP_cons]
  · have := emailsLoop_full u hokAll fuel none [] ps hspec
    simpa using this

/-- Concrete two-page upstream used to witness C5. -/
def uC5 : Upstream where
  audiencesOk := true
  audiences := []
  broadcastsOk := true
  broadcasts := []
  emailsOk := fun _ => true
  emailPage := fun c =>
    match c with
    | none => { data := [{ id := "e1", fromAddr := "f", subject := "s" },
                         { id := "e2", fromAddr := "f", subject := "s" }],
                has_more := true }
    | some x =>
      if x = "e2" then
        { data := [{ id := "e3", fromAddr := "f", subject := "s" }],
          has_more := false }
      else { data := [], has_more := false }
  broadcastDetail := fun _ => none
  emailDetail := fun _ => none

/-- Witness for C5: on the two-page upstream the full fetch concatenates the
pages in order, and the incremental fetch anchored at "e3" makes exactly one
call. -/
theorem email_fetch_modes_c5_witness :
    (emailsLoop uC5 none 2 none []).map Prod.fst =
      some (Except.ok [{ id := "e1", fromAddr := "f", subject := "s" },
                       { id := "e2", fromAddr := "f", subject := "s" },
                       { id := "e3", fromAddr := "f", subject := "s" }]) ∧
    (emailsLoop uC5 (some "e3") 3 (some "e3") []).map
        (fun r => countCalls r.2) = some 1 := by
  have h := email_fetch_modes_c5 uC5 "e3" 2 (fun _ => rfl)
    [[{ id := "e1", fromAddr := "f", subject := "s" },
      { id := "e2", fromAddr := "f", subject := "s" }],
     [{ id := "e3", fromAddr := "f", subject := "s" }]] (by decide)
  exact ⟨by simpa using h.2, h.1.2⟩

/-! ## Key-disjointness facts and run-shape lemmas -/

lemma infoKey_ne_bcCol (x : String) : infoKey x ≠ "rss_broadcasts" := by
  rw [infoKey_as_append]; exact append_ne _ _ _ (by decide)

lemma mdKey_ne_bcCol (x : String) : mdKey x ≠ "rss_broadcasts" := by
  rw [mdKey_as_append]; exact append_ne _ _ _ (by decide)

lemma infoKey_ne_emCol (x : String) : infoKey x ≠ "rss_emails" := by
  rw [infoKey_as_append]; exact append_ne _ _ _ (by decide)

lemma mdKey_ne_emCol (x : String) : mdKey x ≠ "rss_emails" := by
  rw [mdKey_as_append]; exact append_ne _ _ _ (by decide)

lemma infoKey_ne_curCol (x : String) : infoKey x ≠ "rss_last_email_id" := by
  rw [infoKey_as_append]; exact append_ne _ _ _ (by decide)

lemma mdKey_ne_curCol (x : String) : mdKey x ≠ "rss_last_email_id" := by
  rw [mdKey_as_append]; exact append_ne _ _ _ (by decide)

lemma infoKey_ne_audCol (x : String) : infoKey x ≠ "rss_audiences" := by
  rw [infoKey_as_append]; exact append_ne _ _ _ (by decide)

lemma mdKey_ne_audCol (x : String) : mdKey x ≠ "rss_audiences" := by
  rw [mdKey_as_append]; exact append_ne _ _ _ (by decide)

lemma emKey_ne_bcCol (x : String) : emKey x ≠ "rss_broadcasts" :=
  append_ne "rss_email_" x _ (by decide)

lemma emKey_ne_emCol (x : String) : emKey x ≠ "rss_emails" :=
  append_ne "rss_email_" x _ (by decide)

lemma emKey_ne_curCol (x : String) : emKey x ≠ "rss_last_email_id" :=
  append_ne "rss_email_" x _ (by decide)

lemma emKey_ne_audCol (x : String) : emKey x ≠ "rss_audiences" :=
  append_ne "rss_email_" x _ (by decide)

lemma bcKey_ne_bcCol (x : String) : bcKey x ≠ "rss_broadcasts" :=
  append_ne "rss_broadcast_" x _ (by decide)

lemma bcKey_ne_emCol (x : String) : bcKey x ≠ "rss_emails" :=
  append_ne "rss_broadcast_" x _ (by decide)

lemma bcKey_ne_curCol (x : String) : bcKey x ≠ "rss_last_email_id" :=
  append_ne "rss_broadcast_" x _ (by decide)

lemma bcKey_ne_audCol (x : String) : bcKey x ≠ "rss_audiences" :=
  append_ne "rss_broadcast_" x _ (by decide)

lemma audKey_ne_bcCol (x : String) : audKey x ≠ "rss_broadcasts" :=
  append_ne "rss_audience_" x _ (by decide)

lemma audKey_ne_emCol (x : String) : audKey x ≠ "rss_emails" :=
  append_ne "rss_audience_" x _ (by decide)

lemma audKey_ne_curCol (x : String) : audKey x ≠ "rss_last_email_id" :=
  append_ne "rss_audience_" x _ (by decide)

lemma audKey_ne_audCol (x : String) : audKey x ≠ "rss_audiences" :=
  append_ne "rss_audience_" x _ (by decide)

lemma audWrites_keys (auds : List Audience) :
    ∀ p ∈ audWrites auds,
      p.1 = "rss_audiences" ∨ ∃ a ∈ auds, p.1 = audKey a.id := by
  intro p hp
  rcases List.mem_cons.mp hp with hp | hp
  · exact Or.inl (by rw [hp])
  · rcases List.mem_map.mp hp with ⟨a, ha, he⟩
    exact Or.inr ⟨a, ha, by rw [← he]⟩

lemma bcWrites_keys (bcs : List Broadcast) :
    ∀ p ∈ bcWrites bcs,
      p.1 = "rss_broadcasts" ∨ ∃ b ∈ bcs, p.1 = bcKey b.id := by
  intro p hp
  rcases List.mem_cons.mp hp with hp | hp
  · exact Or.inl (by rw [hp])
  · rcases List.mem_map.mp hp with ⟨b, hb, he⟩
    exact Or.inr ⟨b, hb, by rw [← he]⟩

lemma emailWrites_keys (n a : List Email) :
    ∀ p ∈ emailWrites n a,
      p.1 = "rss_emails" ∨ (∃ e ∈ n, p.1 = emKey e.id) ∨
        p.1 = "rss_last_email_id" := by
  intro p hp
  rcases List.mem_cons.mp hp with hp | hp
  · exact Or.inl (by rw [hp])
  · rcases List.mem_append.mp hp with hp | hp
    · rcases List.mem_map.mp hp with ⟨e, he, heq⟩
      exact Or.inr (Or.inl ⟨e, he, by rw [← heq]⟩)
    · cases a with
      | nil => simp at hp
      | cons e0 t =>
        simp only [List.mem_singleton] at hp
        exact Or.inr (Or.inr (by rw [hp]))

/-- Success-shape of the historical cron run: a `success` response implies
auth and config passed, both list fetches succeeded, and the writes/trace are
exactly the four phases' writes/trace in order. -/
lemma runCron_success_shape (env : Env) (authHeader : Option String)
    (u : Upstream) (td : String → String) (fuel : Nat) (store0 : Store)
    (a bcnt n t : Nat) (w : List (String × BlobVal)) (tr : List Ev)
    (h : runCron env authHeader u td fuel store0 =
      some (SyncResult.success a bcnt n t, w, tr)) :
    authOk env authHeader = true ∧
    (truthy env.apiKey && truthy env.audienceId) = true ∧
    u.audiencesOk = true ∧ u.broadcastsOk = true ∧
    ∃ newEmails allEmails trE,
      fetchEmailsInc u fuel
        (putList store0 (audWrites u.audiences ++
          bcWrites (u.broadcasts.filter
            (fun b => b.audience_id == envStr env.audienceId)))) =
        some (Except.ok (newEmails, allEmails), trE) ∧
      allEmails = newEmails ++ storedEmails
        (putList store0 (audWrites u.audiences ++
          bcWrites (u.broadcasts.filter
            (fun b => b.audience_id == envStr env.audienceId)))) ∧
      w = audWrites u.audiences ++
          bcWrites (u.broadcasts.filter
            (fun b => b.audience_id == envStr env.audienceId)) ++
          emailWrites newEmails allEmails ++
          (matchAndStore u td
            (u.broadcasts.filter
              (fun b => b.audience_id == envStr env.audienceId)) newEmails).1 ∧
      tr = [Ev.call, Ev.sleepEv 500] ++ [Ev.call, Ev.sleepEv 500] ++ trE ++
          (matchAndStore u td
            (u.broadcasts.filter
              (fun b => b.audience_id == envStr env.audienceId)) newEmails).2 := by
  by_cases hauth : authOk env authHeader = true
  case neg =>
    have hf : authOk env authHeader = false := Bool.not_eq_true _ ▸ hauth
    rw [runCron, hf] at h
    simp at h
  case pos =>
  rw [runCron, hauth] at h
  simp only [Bool.not_true, Bool.false_eq_true, if_false] at h
  by_cases hcfg : (truthy env.apiKey && truthy env.audienceId) = true
  case neg =>
    have hf : (truthy env.apiKey && truthy env.audienceId) = false :=
      Bool.not_eq_true _ ▸ hcfg
    rw [hf] at h
    simp at h
  case pos =>
  rw [hcfg] at h
  simp only [Bool.not_true, Bool.false_eq_true, if_false] at h
  by_cases haud : u.audiencesOk = true
  case neg =>
    have hf : u.audiencesOk = false := Bool.not_eq_true _ ▸ haud
    rw [fetchAudiences, hf] at h
    simp at h
  case pos =>
  rw [fetchAudiences, haud] at h
  simp only [if_true] at h
  by_cases hbc : u.broadcastsOk = true
  case neg =>
    have hf : u.broadcastsOk = false := Bool.not_eq_true _ ▸ hbc
    rw [fetchBroadcasts, hf] at h
    simp at h
  case pos =>
  rw [fetchBroadcasts, hbc] at h
  simp only [if_true] at h
  rcases hE : fetchEmailsInc u fuel
      (putList store0 (audWrites u.audiences ++
        bcWrites (u.broadcasts.filter
          (fun b => b.audience_id == envStr env.audienceId)))) with _ | ⟨eE, trE⟩
  · rw [hE] at h
    cases h
  · rw [hE] at h
    cases eE with
    | error msg => simp at h
    | ok pr =>
      rcases pr with ⟨newEmails, allEmails⟩
      simp only [Option.some.injEq, Prod.mk.injEq, SyncResult.success.injEq] at h
      refine ⟨hauth, hcfg, haud, hbc, newEmails, allEmails, trE, rfl, ?_, ?_, ?_⟩
      · rw [fetchEmailsInc] at hE
        rcases hL : emailsLoop u
            (storedCursor (putList store0 (audWrites u.audiences ++
              bcWrites (u.broadcasts.filter
                (fun b => b.audience_id == envStr env.audienceId))))) fuel
            (storedCursor (putList store0 (audWrites u.audiences ++
              bcWrites (u.broadcasts.filter
                (fun b => b.audience_id == envStr env.audienceId))))) []
            with _ | ⟨r, trL⟩
        · rw [hL] at hE; cases hE
        · rw [hL] at hE
          cases r with
          | error m => simp at hE
          | ok N =>
            simp only [Option.some.injEq, Prod.mk.injEq, Except.ok.injEq] at hE
            rw [← hE.1.2, ← hE.1.1]
      · exact h.2.1.symm
      · rw [← h.2.2]

/-- Success-shape of the current cron run: a `successCurrent` response
implies auth and config passed, both list fetches succeeded, and the
writes/trace are the three phases' writes/trace in order. -/
lemma runCronCurrent_success_shape (env : Env) (authHeader : Option String)
    (u : Upstream) (td : String → String)
    (a bcnt : Nat) (w : List (String × BlobVal)) (tr : List Ev)
    (h : runCronCurrent env authHeader u td =
      (SyncResult.successCurrent a bcnt, w, tr)) :
    authOk env authHeader = true ∧
    (truthy env.apiKey && truthy env.audienceId) = true ∧
    u.audiencesOk = true ∧ u.broadcastsOk = true ∧
    w = audWrites u.audiences ++
        bcWrites (u.broadcasts.filter
          (fun b => b.audience_id == envStr env.audienceId)) ++
        (fetchAndStoreBroadcastsWithHtml u td
          (u.broadcasts.filter
            (fun b => b.audience_id == envStr env.audienceId))).1 ∧
    tr = [Ev.call, Ev.sleepEv 500] ++ [Ev.call, Ev.sleepEv 500] ++
        (fetchAndStoreBroadcastsWithHtml u td
          (u.broadcasts.filter
            (fun b => b.audience_id == envStr env.audienceId))).2 := by
  by_cases hauth : authOk env authHeader = true
  case neg =>
    have hf : authOk env authHeader = false := Bool.not_eq_true _ ▸ hauth
    rw [runCronCurrent, hf] at h
    simp at h
  case pos =>
  rw [runCronCurrent, hauth] at h
  simp only [Bool.not_true, Bool.false_eq_true, if_false] at h
  by_cases hcfg : (truthy env.apiKey && truthy env.audienceId) = true
  case neg =>
    have hf : (truthy env.apiKey && truthy env.audienceId) = false :=
      Bool.not_eq_true _ ▸ hcfg
    rw [hf] at h
    simp at h
  case pos =>
  rw [hcfg] at h
  simp only [Bool.not_true, Bool.false_eq_true, if_false] at h
  by_cases haud : u.audiencesOk = true
  case neg =>
    have hf : u.audiencesOk = false := Bool.not_eq_true _ ▸ haud
    rw [fetchAudiences, hf] at h
    simp at h
  case pos =>
  rw [fetchAudiences, haud] at h
  simp only [if_true] at h
  by_cases hbc : u.broadcastsOk = true
  case neg =>
    have hf : u.broadcastsOk = false := Bool.not_eq_true _ ▸ hbc
    rw [fetchBroadcasts, hf] at h
    simp at h
  case pos =>
  rw [fetchBroadcasts, hbc] at h
  simp only [if_true, Prod.mk.injEq, SyncResult.successCurrent.injEq] at h
  exact ⟨hauth, hcfg, haud, hbc, h.2.1.symm, by rw [← h.2.2]⟩

/-! ## C4: the persisted broadcast collection is exactly the audience filter -/

/-- C4.  In both sync variants, a successful run persists under
`rss_broadcasts` exactly the upstream broadcasts whose `audience_id` equals
the configured audience id, and no others. -/
theorem audience_filter_c4 (env : Env) (authHeader : Option String)
    (u : Upstream) (td : String → String) (fuel : Nat)
    (store0 store1 : Store) (a bcnt n t a2 b2 : Nat)
    (w w2 : List (String × BlobVal)) (tr tr2 : List Ev)
    (h : runCron env authHeader u td fuel store0 =
      some (SyncResult.success a bcnt n t, w, tr))
    (h2 : runCronCurrent env authHeader u td =
      (SyncResult.successCurrent a2 b2, w2, tr2)) :
    readB (putList store0 w) "rss_broadcasts" =
      some (BlobVal.broadcasts (u.broadcasts.filter
        (fun b => b.audience_id == envStr env.audienceId))) ∧
    readB (putList store1 w2) "rss_broadcasts" =
      some (BlobVal.broadcasts (u.broadcasts.filter
        (fun b => b.audience_id == envStr env.audienceId))) ∧
    ∀ b, b ∈ u.broadcasts.filter
        (fun b => b.audience_id == envStr env.audienceId) ↔
      (b ∈ u.broadcasts ∧ b.audience_id = envStr env.audienceId) := by
  obtain ⟨-, -, -, -, newEmails, allEmails, trE, -, -, hw, -⟩ :=
    runCron_success_shape env authHeader u td fuel store0 a bcnt n t w tr h
  obtain ⟨-, -, -, -, hw2, -⟩ :=
    runCronCurrent_success_shape env authHeader u td a2 b2 w2 tr2 h2
  have hbcW : lastW (bcWrites (u.broadcasts.filter
      (fun b => b.audience_id == envStr env.audienceId))) "rss_broadcasts" =
      some (BlobVal.broadcasts (u.broadcasts.filter
        (fun b => b.audience_id == envStr env.audienceId))) := by
    rw [bcWrites, lastW_cons, lastW_eq_none]
    · simp
    · intro p hp
      rcases List.mem_map.mp hp with ⟨b, hb, he⟩
      rw [← he]
      exact bcKey_ne_bcCol b.id
  refine ⟨?_, ?_, ?_⟩
  · rw [hw]
    show putList store0 _ "rss_broadcasts" = _
    rw [putList_apply]
    rw [lastW_append, lastW_append, lastW_append]
    rw [lastW_eq_none ((matchAndStore u td
        (u.broadcasts.filter (fun b => b.audience_id == envStr env.audienceId))
        newEmails).1) _ ?hm]
    case hm =>
      intro p hp
      obtain ⟨b, -, ho⟩ := matchAndStore_keys u td _ newEmails p hp
      rcases ho with ho | ho
      · rw [ho]; exact infoKey_ne_bcCol b.id
      · rw [ho]; exact mdKey_ne_bcCol b.id
    rw [lastW_eq_none (emailWrites newEmails allEmails) _ ?he]
    case he =>
      intro p hp
      rcases emailWrites_keys newEmails allEmails p hp with hp1 | ⟨e, -, hp1⟩ | hp1
      · rw [hp1]; decide
      · rw [hp1]; exact emKey_ne_bcCol e.id
      · rw [hp1]; decide
    rw [hbcW]
    simp [Option.or]
  · rw [hw2]
    show putList store1 _ "rss_broadcasts" = _
    rw [putList_apply]
    rw [lastW_append, lastW_append]
    rw [lastW_eq_none ((fetchAndStoreBroadcastsWithHtml u td
        (u.broadcasts.filter
          (fun b => b.audience_id == envStr env.audienceId))).1) _ ?hh]
    case hh =>
      intro p hp
      obtain ⟨b, -, ho⟩ := storeWithHtml_keys u td _ p hp
      rcases ho with ho | ho
      · rw [ho]; exact infoKey_ne_bcCol b.id
      · rw [ho]; exact mdKey_ne_bcCol b.id
    rw [hbcW]
    simp [Option.or]
  · intro b
    rw [List.mem_filter]
    simp [beq_iff_eq]

/-- Concrete upstream used to witness C4/C7: two broadcasts, one matching
the configured audience "aud". -/
def uC4 : Upstream where
  audiencesOk := true
  audiences := []
  broadcastsOk := true
  broadcasts := [{ id := "b1", audience_id := "aud" },
                 { id := "b2", audience_id := "other" }]
  emailsOk := fun _ => true
  emailPage := fun _ => { data := [], has_more := false }
  broadcastDetail := fun _ => none
  emailDetail := fun _ => none

/-- Witness for C4: on the concrete two-broadcast upstream, both variants
persist exactly the single matching broadcast under `rss_broadcasts`. -/
theorem audience_filter_c4_witness :
    readB (putList emptyStore
      [("rss_audiences", BlobVal.audiences []),
       ("rss_broadcasts",
         BlobVal.broadcasts [{ id := "b1", audience_id := "aud" }]),
       ("rss_broadcast_b1",
         BlobVal.broadcast { id := "b1", audience_id := "aud" }),
       ("rss_emails", BlobVal.emails [])]) "rss_broadcasts" =
      some (BlobVal.broadcasts [{ id := "b1", audience_id := "aud" }]) :=
  (audience_filter_c4
    { cronSecret := some "s", apiKey := some "k", audienceId := some "aud" }
    (some "Bearer s") uC4 id 1 emptyStore emptyStore 0 1 0 0 0 1
    [("rss_audiences", BlobVal.audiences []),
     ("rss_broadcasts",
       BlobVal.broadcasts [{ id := "b1", audience_id := "aud" }]),
     ("rss_broadcast_b1",
       BlobVal.broadcast { id := "b1", audience_id := "aud" }),
     ("rss_emails", BlobVal.emails [])]
    [("rss_audiences", BlobVal.audiences []),
     ("rss_broadcasts",
       BlobVal.broadcasts [{ id := "b1", audience_id := "aud" }]),
     ("rss_broadcast_b1",
       BlobVal.broadcast { id := "b1", audience_id := "aud" })]
    [Ev.call, Ev.sleepEv 500, Ev.call, Ev.sleepEv 500, Ev.call,
     Ev.call, Ev.sleepEv 500]
    [Ev.call, Ev.sleepEv 500, Ev.call, Ev.sleepEv 500, Ev.call, Ev.sleepEv 500]
    (by decide) (by decide)).1

/-! ## Read-through lemmas for the email keys -/

lemma lastW_matchAndStore_ne (u : Upstream) (td : String → String)
    (bcs : List Broadcast) (emails : List Email) (k : String)
    (h1 : ∀ x, infoKey x ≠ k) (h2 : ∀ x, mdKey x ≠ k) :
    lastW (matchAndStore u td bcs emails).1 k = none := by
  apply lastW_eq_none
  intro p hp
  obtain ⟨b, -, ho⟩ := matchAndStore_keys u td bcs emails p hp
  rcases ho with ho | ho
  · rw [ho]; exact h1 b.id
  · rw [ho]; exact h2 b.id

lemma lastW_storeWithHtml_ne (u : Upstream) (td : String → String)
    (bcs : List Broadcast) (k : String)
    (h1 : ∀ x, infoKey x ≠ k) (h2 : ∀ x, mdKey x ≠ k) :
    lastW (fetchAndStoreBroadcastsWithHtml u td bcs).1 k = none := by
  apply lastW_eq_none
  intro p hp
  obtain ⟨b, -, ho⟩ := storeWithHtml_keys u td bcs p hp
  rcases ho with ho | ho
  · rw [ho]; exact h1 b.id
  · rw [ho]; exact h2 b.id

lemma lastW_audbc_ne (auds : List Audience) (bcs : List Broadcast) (k : String)
    (h1 : "rss_audiences" ≠ k) (h2 : ∀ x, audKey x ≠ k)
    (h3 : "rss_broadcasts" ≠ k) (h4 : ∀ x, bcKey x ≠ k) :
    lastW (audWrites auds ++ bcWrites bcs) k = none := by
  apply lastW_eq_none
  intro p hp
  rcases List.mem_append.mp hp with hp | hp
  · rcases audWrites_keys auds p hp with hp1 | ⟨x, -, hp1⟩
    · rw [hp1]; exact h1
    · rw [hp1]; exact h2 x.id
  · rcases bcWrites_keys bcs p hp with hp1 | ⟨x, -, hp1⟩
    · rw [hp1]; exact h3
    · rw [hp1]; exact h4 x.id

lemma lastW_emailWrites_emails (N A : List Email) :
    lastW (emailWrites N A) "rss_emails" = some (BlobVal.emails A) := by
  rw [emailWrites.eq_def, lastW_cons, lastW_eq_none]
  · simp
  · intro p hp
    rcases List.mem_append.mp hp with hp | hp
    · rcases List.mem_map.mp hp with ⟨e, -, he⟩
      rw [← he]
      exact emKey_ne_emCol e.id
    · cases A with
      | nil => simp at hp
      | cons e0 rest =>
        simp only [List.mem_singleton] at hp
        rw [hp]
        show "rss_last_email_id" ≠ "rss_emails"
        decide

lemma lastW_emailWrites_cursor (N A : List Email) :
    lastW (emailWrites N A) "rss_last_email_id" =
      A.head?.map (fun e => BlobVal.text e.id) := by
  rw [emailWrites.eq_def, lastW_cons]
  have hper : lastW (N.map (fun e => (emKey e.id, BlobVal.email e)))
      "rss_last_email_id" = none := by
    apply lastW_eq_none
    intro p hp
    rcases List.mem_map.mp hp with ⟨e, -, he⟩
    rw [← he]
    exact emKey_ne_curCol e.id
  cases A with
  | nil =>
    rw [lastW_eq_none]
    · simp
    · intro p hp
      rw [List.append_nil] at hp
      rcases List.mem_map.mp hp with ⟨e, -, he⟩
      rw [← he]
      exact emKey_ne_curCol e.id
  | cons e0 rest =>
    rw [lastW_append, hper]
    have : lastW [("rss_last_email_id", BlobVal.text e0.id)]
        "rss_last_email_id" = some (BlobVal.text e0.id) := by
      rw [lastW_cons, lastW_nil]
      simp
    rw [this]
    simp [Option.or]

lemma storeMid_emails (s : Store) (auds : List Audience)
    (bcs : List Broadcast) :
    storedEmails (putList s (audWrites auds ++ bcWrites bcs)) =
      storedEmails s := by
  rw [storedEmails, storedEmails, readB, readB, putList_apply,
    lastW_audbc_ne auds bcs _ (by decide) (fun x => audKey_ne_emCol x)
      (by decide) (fun x => bcKey_ne_emCol x)]
  rfl

lemma storeMid_cursor (s : Store) (auds : List Audience)
    (bcs : List Broadcast) :
    storedCursor (putList s (audWrites auds ++ bcWrites bcs)) =
      storedCursor s := by
  rw [storedCursor, storedCursor, readB, readB, putList_apply,
    lastW_audbc_ne auds bcs _ (by decide) (fun x => audKey_ne_curCol x)
      (by decide) (fun x => bcKey_ne_curCol x)]
  rfl

/-! ## C1: incremental merge order and cursor update -/

/-- C1.  Historical incremental sync: a successful run persists under
`rss_emails` exactly `N ++ E`, where `E` is the previously stored collection
and `N` the newly fetched emails in fetch order (neither sub-sequence
reordered); the persisted cursor equals `N[0].id` whenever `N` is non-empty;
and whenever `N` is empty the cursor key is left unchanged, provided the
prior store is cursor-consistent (the stored cursor is the id of the head of
the stored collection, the invariant every successful run maintains). -/
theorem incremental_merge_c1 (env : Env) (authHeader : Option String)
    (u : Upstream) (td : String → String) (fuel : Nat) (store0 : Store)
    (a bcnt n t : Nat) (w : List (String × BlobVal)) (tr : List Ev)
    (N : List Email) (trE : List Ev)
    (h : runCron env authHeader u td fuel store0 =
      some (SyncResult.success a bcnt n t, w, tr))
    (hN : emailsLoop u (storedCursor store0) fuel (storedCursor store0) [] =
      some (Except.ok N, trE)) :
    storedEmails (putList store0 w) = N ++ storedEmails store0 ∧
    (∀ e0 rest, N = e0 :: rest →
      storedCursor (putList store0 w) = some e0.id) ∧
    (N = [] →
      storedCursor store0 = (storedEmails store0).head?.map (fun e => e.id) →
      storedCursor (putList store0 w) = storedCursor store0) := by
  obtain ⟨-, -, -, -, newEmails, allEmails, trE2, hE, -, hw, -⟩ :=
    runCron_success_shape env authHeader u td fuel store0 a bcnt n t w tr h
  have hcurMid := storeMid_cursor store0 u.audiences
    (u.broadcasts.filter (fun b => b.audience_id == envStr env.audienceId))
  have hemMid := storeMid_emails store0 u.audiences
    (u.broadcasts.filter (fun b => b.audience_id == envStr env.audienceId))
  rw [fetchEmailsInc, hcurMid] at hE
  simp only [hN] at hE
  rw [hemMid] at hE
  simp only [Option.some.injEq, Prod.mk.injEq, Except.ok.injEq] at hE
  obtain ⟨⟨hN1, hN2⟩, -⟩ := hE
  have hMnone : ∀ k, (∀ x, infoKey x ≠ k) → (∀ x, mdKey x ≠ k) →
      lastW ((matchAndStore u td
        (u.broadcasts.filter (fun b => b.audience_id == envStr env.audienceId))
        newEmails).1) k = none :=
    fun k h1 h2 => lastW_matchAndStore_ne u td _ newEmails k h1 h2
  have hreadEm : putList store0 w "rss_emails" =
      some (BlobVal.emails allEmails) := by
    rw [hw, putList_apply, lastW_append, lastW_append,
      hMnone "rss_emails" (fun x => infoKey_ne_emCol x)
        (fun x => mdKey_ne_emCol x),
      lastW_emailWrites_emails]
    simp [Option.or]
  have hallN : allEmails = N ++ storedEmails store0 := by
    rw [← hN2]
  refine ⟨?_, ?_, ?_⟩
  · have h1 : storedEmails (putList store0 w) = allEmails := by
      rw [storedEmails, readB, hreadEm]
    rw [h1, hallN]
  · intro e0 rest hNe
    have hcons : allEmails = e0 :: (rest ++ storedEmails store0) := by
      rw [hallN, hNe]
      rfl
    have hreadCur : putList store0 w "rss_last_email_id" =
        some (BlobVal.text e0.id) := by
      rw [hw, putList_apply, lastW_append, lastW_append,
        hMnone "rss_last_email_id" (fun x => infoKey_ne_curCol x)
          (fun x => mdKey_ne_curCol x),
        lastW_emailWrites_cursor, hcons]
      simp [Option.or]
    rw [storedCursor, readB, hreadCur]
  · intro hNnil hconsist
    have hallE : allEmails = storedEmails store0 := by
      rw [hallN, hNnil, List.nil_append]
    rcases hEcase : storedEmails store0 with _ | ⟨e, restE⟩
    · have hreadCur : putList store0 w "rss_last_email_id" =
          store0 "rss_last_email_id" := by
        rw [hw, putList_apply, lastW_append, lastW_append,
          hMnone "rss_last_email_id" (fun x => infoKey_ne_curCol x)
            (fun x => mdKey_ne_curCol x),
          lastW_emailWrites_cursor, hallE, hEcase,
          lastW_audbc_ne u.audiences _ _ (by decide)
            (fun x => audKey_ne_curCol x) (by decide)
            (fun x => bcKey_ne_curCol x)]
        simp [Option.or]
      rw [storedCursor, storedCursor, readB, readB, hreadCur]
    · have hreadCur : putList store0 w "rss_last_email_id" =
          some (BlobVal.text e.id) := by
        rw [hw, putList_apply, lastW_append, lastW_append,
          hMnone "rss_last_email_id" (fun x => infoKey_ne_curCol x)
            (fun x => mdKey_ne_curCol x),
          lastW_emailWrites_cursor, hallE, hEcase]
        simp [Option.or]
      have hc0 : storedCursor store0 = some e.id := by
        rw [hconsist, hEcase]
        rfl
      rw [storedCursor, readB, hreadCur, hc0]

/-- The prior stored email of the C1 witness scenario. -/
def e1C1 : Email := { id := "e1", fromAddr := "f", subject := "s1" }

/-- The new email of the C1 witness scenario. -/
def e2C1 : Email := { id := "e2", fromAddr := "f", subject := "s2" }

/-- Prior store of the C1 witness scenario, holding `[e1C1]` and the
consistent cursor "e1". -/
def store0C1 : Store :=
  putList emptyStore
    [("rss_emails", BlobVal.emails [e1C1]),
     ("rss_last_email_id", BlobVal.text "e1")]

/-- Upstream used to witness C1: the page anchored at the stored cursor
holds the single new email `e2`. -/
def uC1 : Upstream where
  audiencesOk := true
  audiences := []
  broadcastsOk := true
  broadcasts := []
  emailsOk := fun _ => true
  emailPage := fun c =>
    if c = some "e1" then { data := [e2C1], has_more := false }
    else { data := [], has_more := false }
  broadcastDetail := fun _ => none
  emailDetail := fun _ => none

/-- Writes of the witness run for C1. -/
def wC1 : List (String × BlobVal) :=
  [("rss_audiences", BlobVal.audiences []),
   ("rss_broadcasts", BlobVal.broadcasts []),
   ("rss_emails", BlobVal.emails [e2C1, e1C1]),
   ("rss_email_e2", BlobVal.email e2C1),
   ("rss_last_email_id", BlobVal.text "e2")]

/-- Witness for C1: with prior collection `[e1]` and one new email `e2`, the
run persists `[e2, e1]` and advances the cursor to "e2". -/
theorem incremental_merge_c1_witness :
    storedEmails (putList store0C1 wC1) = [e2C1, e1C1] ∧
    storedCursor (putList store0C1 wC1) = some "e2" := by
  have h := incremental_merge_c1
    { cronSecret := some "s", apiKey := some "k", audienceId := some "aud" }
    (some "Bearer s") uC1 id 2 store0C1 0 0 1 2 wC1
    [Ev.call, Ev.sleepEv 500, Ev.call, Ev.sleepEv 500, Ev.call, Ev.sleepEv 500]
    [e2C1] [Ev.call, Ev.sleepEv 500]
    (by decide) (by decide)
  exact ⟨h.1, h.2.1 e2C1 [] rfl⟩

/-! ## C7: enrichment detail failures are non-fatal and skip-only -/

lemma lastW_determined (w : List (String × BlobVal)) (k : String) (v : BlobVal)
    (hex : ∃ p ∈ w, p.1 = k) (hval : ∀ p ∈ w, p.1 = k → p.2 = v) :
    lastW w k = some v := by
  rcases hf : w.reverse.find? (fun p => p.1 == k) with _ | q
  · rw [List.find?_eq_none] at hf
    obtain ⟨p, hp, hpk⟩ := hex
    have := hf p (List.mem_reverse.mpr hp)
    simp [hpk] at this
  · have hq1 : (q.1 == k) = true := by
      have := List.find?_some hf
      simpa using this
    have hq2 : q ∈ w := List.mem_reverse.mp (List.mem_of_find?_eq_some hf)
    have := hval q hq2 (beq_iff_eq.mp hq1)
    rw [lastW, hf, Option.map_some']
    rw [this]

/-- Every write of the current-variant enrichment belongs to a broadcast in
the list whose detail fetch succeeded. -/
lemma storeWithHtml_keys2 (u : Upstream) (td : String → String)
    (bcs : List Broadcast) :
    ∀ p ∈ (fetchAndStoreBroadcastsWithHtml u td bcs).1,
      ∃ b ∈ bcs, (u.broadcastDetail b.id).isSome = true ∧
        (p.1 = infoKey b.id ∨ p.1 = mdKey b.id) := by
  induction bcs with
  | nil => intro p hp; simp [fetchAndStoreBroadcastsWithHtml] at hp
  | cons b rest ih =>
    intro p hp
    simp only [fetchAndStoreBroadcastsWithHtml] at hp
    have hdet : (fetchBroadcastDetails u b.id).1 = u.broadcastDetail b.id := by
      rw [fetchBroadcastDetails]
      rcases u.broadcastDetail b.id with _ | d <;> rfl
    rcases hd : (fetchBroadcastDetails u b.id).1 with _ | d
    · simp only [hd] at hp
      obtain ⟨b', hb', hs, ho⟩ := ih p hp
      exact ⟨b', List.mem_cons_of_mem b hb', hs, ho⟩
    · simp only [hd] at hp
      have hsome : (u.broadcastDetail b.id).isSome = true := by
        rw [← hdet, hd]; rfl
      rcases hh : d.html with _ | h
      · simp only [hh] at hp
        obtain ⟨b', hb', hs, ho⟩ := ih p hp
        exact ⟨b', List.mem_cons_of_mem b hb', hs, ho⟩
      · simp only [hh] at hp
        by_cases hemp : h.isEmpty
        · simp only [hemp, if_pos] at hp
          obtain ⟨b', hb', hs, ho⟩ := ih p hp
          exact ⟨b', List.mem_cons_of_mem b hb', hs, ho⟩
        · simp only [hemp, Bool.false_eq_true, if_neg, not_false_iff,
            List.mem_cons] at hp
          rcases hp with hp | hp | hp
          · exact ⟨b, List.mem_cons_self b rest, hsome, Or.inl (by rw [hp])⟩
          · exact ⟨b, List.mem_cons_self b rest, hsome, Or.inr (by rw [hp])⟩
          · obtain ⟨b', hb', hs, ho⟩ := ih p hp
            exact ⟨b', List.mem_cons_of_mem b hb', hs, ho⟩

/-- Every write of the historical enrichment (`matchAndStore`) belongs to a
broadcast in the list whose detail fetch succeeded. -/
lemma matchAndStore_keys2 (u : Upstream) (td : String → String)
    (bcs : List Broadcast) (emails : List Email) :
    ∀ p ∈ (matchAndStore u td bcs emails).1,
      ∃ b ∈ bcs, (u.broadcastDetail b.id).isSome = true ∧
        (p.1 = infoKey b.id ∨ p.1 = mdKey b.id) := by
  induction bcs with
  | nil => intro p hp; simp [matchAndStore] at hp
  | cons b rest ih =>
    intro p hp
    simp only [matchAndStore] at hp
    have hdet : (fetchBroadcastDetails u b.id).1 = u.broadcastDetail b.id := by
      rw [fetchBroadcastDetails]
      rcases u.broadcastDetail b.id with _ | d <;> rfl
    rcases hd : (fetchBroadcastDetails u b.id).1 with _ | d
    · simp only [hd] at hp
      obtain ⟨b', hb', hs, ho⟩ := ih p hp
      exact ⟨b', List.mem_cons_of_mem b hb', hs, ho⟩
    · simp only [hd] at hp
      have hsome : (u.broadcastDetail b.id).isSome = true := by
        rw [← hdet, hd]; rfl
      rcases hc : correlate d emails with _ | m
      · simp only [hc] at hp
        obtain ⟨b', hb', hs, ho⟩ := ih p hp
        exact ⟨b', List.mem_cons_of_mem b hb', hs, ho⟩
      · simp only [hc] at hp
        rcases he : (fetchEmailDetails u m.id).1 with _ | ed
        · simp only [he] at hp
          obtain ⟨b', hb', hs, ho⟩ := ih p hp
          exact ⟨b', List.mem_cons_of_mem b hb', hs, ho⟩
        · simp only [he] at hp
          rcases hh : ed.html with _ | h
          · simp only [hh] at hp
            obtain ⟨b', hb', hs, ho⟩ := ih p hp
            exact ⟨b', List.mem_cons_of_mem b hb', hs, ho⟩
          · simp only [hh] at hp
            by_cases hemp : h.isEmpty
            · simp only [hemp, if_pos] at hp
              obtain ⟨b', hb', hs, ho⟩ := ih p hp
              exact ⟨b', List.mem_cons_of_mem b hb', hs, ho⟩
            · simp only [hemp, Bool.false_eq_true, if_neg, not_false_iff,
                List.mem_cons] at hp
              rcases hp with hp | hp | hp
              · exact ⟨b, List.mem_cons_self b rest, hsome, Or.inl (by rw [hp])⟩
              · exact ⟨b, List.mem_cons_self b rest, hsome, Or.inr (by rw [hp])⟩
              · obtain ⟨b', hb', hs, ho⟩ := ih p hp
                exact ⟨b', List.mem_cons_of_mem b hb', hs, ho⟩

/-- Any current-variant enrichment write at an info key stores exactly the
detail record fetched for that id. -/
lemma storeWithHtml_val (u : Upstream) (td : String → String)
    (bcs : List Broadcast) :
    ∀ p ∈ (fetchAndStoreBroadcastsWithHtml u td bcs).1, ∀ bid,
      p.1 = infoKey bid →
      ∃ d, u.broadcastDetail bid = some d ∧ p.2 = BlobVal.broadcast d := by
  induction bcs with
  | nil => intro p hp; simp [fetchAndStoreBroadcastsWithHtml] at hp
  | cons b rest ih =>
    intro p hp bid hk
    simp only [fetchAndStoreBroadcastsWithHtml] at hp
    have hdet : (fetchBroadcastDetails u b.id).1 = u.broadcastDetail b.id := by
      rw [fetchBroadcastDetails]
      rcases u.broadcastDetail b.id with _ | d <;> rfl
    rcases hd : (fetchBroadcastDetails u b.id).1 with _ | d
    · simp only [hd] at hp
      exact ih p hp bid hk
    · simp only [hd] at hp
      rcases hh : d.html with _ | h
      · simp only [hh] at hp
        exact ih p hp bid hk
      · simp only [hh] at hp
        by_cases hemp : h.isEmpty
        · simp only [hemp, if_pos] at hp
          exact ih p hp bid hk
        · simp only [hemp, Bool.false_eq_true, if_neg, not_false_iff,
            List.mem_cons] at hp
          rcases hp with hp | hp | hp
          · rw [hp] at hk
            simp only at hk
            have hbid : b.id = bid := infoKey_inj hk
            refine ⟨d, by rw [← hbid, ← hdet, hd], by rw [hp]⟩
          · rw [hp] at hk
            simp only at hk
            exact absurd hk.symm (infoKey_ne_mdKey bid b.id)
          · exact ih p hp bid hk

/-- If a broadcast in the list has details with truthy html, the
current-variant enrichment writes its info key. -/
lemma storeWithHtml_mem (u : Upstream) (td : String → String) :
    ∀ (bcs : List Broadcast) (b2 : Broadcast) (d : Broadcast) (h : String),
      b2 ∈ bcs → u.broadcastDetail b2.id = some d → d.html = some h →
      h.isEmpty = false →
      ∃ p ∈ (fetchAndStoreBroadcastsWithHtml u td bcs).1,
        p.1 = infoKey b2.id := by
  intro bcs
  induction bcs with
  | nil => intro b2 d h hb; simp at hb
  | cons b rest ih =>
    intro b2 d h hb hdet hhtml hemp
    simp only [fetchAndStoreBroadcastsWithHtml]
    rcases List.mem_cons.mp hb with hb | hb
    · have hd : (fetchBroadcastDetails u b.id).1 = some d := by
        rw [fetchBroadcastDetails, ← hb, hdet]
      simp only [hd, hhtml, hemp, Bool.false_eq_true, if_neg, not_false_iff]
      refine ⟨(infoKey b.id, BlobVal.broadcast d), List.mem_cons_self _ _, ?_⟩
      rw [hb]
    · obtain ⟨p, hp, hpk⟩ := ih b2 d h hb hdet hhtml hemp
      rcases hd : (fetchBroadcastDetails u b.id).1 with _ | d0
      · simp only [hd]
        exact ⟨p, hp, hpk⟩
      · rcases hh : d0.html with _ | h0
        · simp only [hd, hh]
          exact ⟨p, hp, hpk⟩
        · by_cases hem0 : h0.isEmpty
          · simp only [hd, hh, hem0, if_pos]
            exact ⟨p, hp, hpk⟩
          · simp only [hd, hh, hem0, Bool.false_eq_true, if_neg, not_false_iff]
            exact ⟨p, List.mem_cons_of_mem _ (List.mem_cons_of_mem _ hp), hpk⟩

/-- C7.  A non-2xx detail response for one broadcast is non-fatal: in both
enrichment variants nothing is persisted under that broadcast's info or
markdown keys, every other broadcast whose detail fetch succeeds with truthy
html is still enriched, and the current-variant run completes with the
success response whenever auth, config and the two list fetches succeed —
independent of any detail-fetch failures. -/
theorem enrichment_nonfatal_c7 (u : Upstream) (td : String → String)
    (bcs : List Broadcast) (emails : List Email) (b : Broadcast)
    (_hb : b ∈ bcs) (hnone : u.broadcastDetail b.id = none) :
    lastW (fetchAndStoreBroadcastsWithHtml u td bcs).1 (infoKey b.id) = none ∧
    lastW (fetchAndStoreBroadcastsWithHtml u td bcs).1 (mdKey b.id) = none ∧
    lastW (matchAndStore u td bcs emails).1 (infoKey b.id) = none ∧
    lastW (matchAndStore u td bcs emails).1 (mdKey b.id) = none ∧
    (∀ b2 d h2, b2 ∈ bcs → u.broadcastDetail b2.id = some d →
      d.html = some h2 → h2.isEmpty = false →
      lastW (fetchAndStoreBroadcastsWithHtml u td bcs).1 (infoKey b2.id) =
        some (BlobVal.broadcast d)) ∧
    (∀ env authHeader, authOk env authHeader = true →
      (truthy env.apiKey && truthy env.audienceId) = true →
      u.audiencesOk = true → u.broadcastsOk = true →
      (runCronCurrent env authHeader u td).1 =
        SyncResult.successCurrent u.audiences.length
          (u.broadcasts.filter
            (fun b' => b'.audience_id == envStr env.audienceId)).length) := by
  have hinfo : ∀ (w : List (String × BlobVal)),
      (∀ p ∈ w, ∃ b' ∈ bcs, (u.broadcastDetail b'.id).isSome = true ∧
        (p.1 = infoKey b'.id ∨ p.1 = mdKey b'.id)) →
      lastW w (infoKey b.id) = none ∧ lastW w (mdKey b.id) = none := by
    intro w hkeys
    constructor
    · apply lastW_eq_none
      intro p hp
      obtain ⟨b', -, hs, ho⟩ := hkeys p hp
      rcases ho with ho | ho
      · rw [ho]
        intro he
        have := infoKey_inj he
        rw [this, hnone] at hs
        cases hs
      · rw [ho]
        exact fun he => infoKey_ne_mdKey b.id b'.id he.symm
    · apply lastW_eq_none
      intro p hp
      obtain ⟨b', -, hs, ho⟩ := hkeys p hp
      rcases ho with ho | ho
      · rw [ho]
        exact fun he => infoKey_ne_mdKey b'.id b.id he
      · rw [ho]
        intro he
        have := mdKey_inj he
        rw [this, hnone] at hs
        cases hs
  obtain ⟨h1, h2⟩ := hinfo _ (storeWithHtml_keys2 u td bcs)
  obtain ⟨h3, h4⟩ := hinfo _ (matchAndStore_keys2 u td bcs emails)
  refine ⟨h1, h2, h3, h4, ?_, ?_⟩
  · intro b2 d h2' hb2 hdet hhtml hemp
    apply lastW_determined
    · obtain ⟨p, hp, hpk⟩ := storeWithHtml_mem u td bcs b2 d h2' hb2 hdet hhtml hemp
      exact ⟨p, hp, hpk⟩
    · intro p hp hpk
      obtain ⟨d', hd', hv⟩ := storeWithHtml_val u td bcs p hp b2.id hpk
      rw [hdet] at hd'
      injection hd' with hd'
      rw [hv, hd']
  · intro env authHeader ha hc haud hbc
    rw [runCronCurrent, ha]
    simp only [Bool.not_true, Bool.false_eq_true, if_false]
    rw [hc]
    simp only [Bool.not_true, Bool.false_eq_true, if_false]
    rw [fetchAudiences, haud]
    simp only [if_true]
    rw [fetchBroadcasts, hbc]
    simp only [if_true]

/-- Upstream used to witness C7: detail fetch fails (non-2xx) for "bX" and
succeeds with html for "bY". -/
def uC7 : Upstream where
  audiencesOk := true
  audiences := []
  broadcastsOk := true
  broadcasts := [{ id := "bX", audience_id := "aud" },
                 { id := "bY", audience_id := "aud" }]
  emailsOk := fun _ => true
  emailPage := fun _ => { data := [], has_more := false }
  broadcastDetail := fun i =>
    if i = "bY" then
      some { id := "bY", audience_id := "aud", html := some "<p>Y</p>" }
    else none
  emailDetail := fun _ => none

/-- Witness for C7: with detail of "bX" failing, nothing is stored under
"bX"'s info key while "bY" is still enriched, and the run succeeds. -/
theorem enrichment_nonfatal_c7_witness :
    lastW (fetchAndStoreBroadcastsWithHtml uC7 id uC7.broadcasts).1
      (infoKey "bX") = none ∧
    lastW (fetchAndStoreBroadcastsWithHtml uC7 id uC7.broadcasts).1
      (infoKey "bY") =
      some (BlobVal.broadcast
        { id := "bY", audience_id := "aud", html := some "<p>Y</p>" }) ∧
    (runCronCurrent
      { cronSecret := some "s", apiKey := some "k", audienceId := some "aud" }
      (some "Bearer s") uC7 id).1 = SyncResult.successCurrent 0 2 := by
  have h := enrichment_nonfatal_c7 uC7 id uC7.broadcasts []
    { id := "bX", audience_id := "aud" } (by decide) (by decide)
  refine ⟨h.1, ?_, ?_⟩
  · exact h.2.2.2.2.1 { id := "bY", audience_id := "aud" }
      { id := "bY", audience_id := "aud", html := some "<p>Y</p>" }
      "<p>Y</p>" (by decide) (by decide) rfl rfl
  · have := h.2.2.2.2.2
      { cronSecret := some "s", apiKey := some "k", audienceId := some "aud" }
      (some "Bearer s") (by decide) (by decide) rfl rfl
    simpa using this

/-! ## C2: rate-limit spacing -/

lemma spacedGo_append (t₁ t₂ : List Ev) :
    ∀ b, spacedGo b (t₁ ++ t₂) =
      (spacedGo b t₁).bind (fun b' => spacedGo b' t₂) := by
  induction t₁ with
  | nil => intro b; rfl
  | cons e t ih =>
    intro b
    cases e with
    | call =>
      by_cases hb : b
      · simp [spacedGo, hb]
      · simp only [List.cons_append, spacedGo, hb, Bool.false_eq_true,
          if_false, if_neg]
        exact ih true
    | sleepEv ms =>
      simp only [List.cons_append, spacedGo]
      exact ih _

lemma fetchBroadcastDetails_trace (u : Upstream) (i : String) :
    (fetchBroadcastDetails u i).2 = [Ev.call, Ev.sleepEv 500] := by
  rw [fetchBroadcastDetails]
  rcases u.broadcastDetail i with _ | d <;> rfl

lemma fetchEmailDetails_trace (u : Upstream) (i : String) :
    (fetchEmailDetails u i).2 = [Ev.call, Ev.sleepEv 500] := by
  rw [fetchEmailDetails]
  rcases u.emailDetail i with _ | d <;> rfl

lemma spacedGo_matchAndStore (u : Upstream) (td : String → String) :
    ∀ (bcs : List Broadcast) (emails : List Email),
      spacedGo false (matchAndStore u td bcs emails).2 = some false := by
  intro bcs
  induction bcs with
  | nil => intro emails; rfl
  | cons b rest ih =>
    intro emails
    have hcs : spacedGo false [Ev.call, Ev.sleepEv 500] = some false := rfl
    simp only [matchAndStore]
    rcases hd : (fetchBroadcastDetails u b.id).1 with _ | d
    · simp only [hd, fetchBroadcastDetails_trace, spacedGo_append, hcs,
        Option.bind_some]
      exact ih emails
    · simp only [hd]
      rcases hc : correlate d emails with _ | m
      · simp only [hc, fetchBroadcastDetails_trace, spacedGo_append, hcs,
          Option.bind_some]
        exact ih emails
      · simp only [hc]
        rcases he : (fetchEmailDetails u m.id).1 with _ | ed
        · simp only [he, fetchBroadcastDetails_trace, fetchEmailDetails_trace,
            spacedGo_append, hcs, Option.bind_some]
          exact ih emails
        · simp only [he]
          rcases hh : ed.html with _ | h
          · simp only [hh, fetchBroadcastDetails_trace,
              fetchEmailDetails_trace, spacedGo_append, hcs, Option.bind_some]
            exact ih emails
          · simp only [hh]
            by_cases hemp : h.isEmpty
            · simp only [hemp, if_pos, fetchBroadcastDetails_trace,
                fetchEmailDetails_trace, spacedGo_append, hcs, Option.bind_some]
              exact ih emails
            · simp only [hemp, Bool.false_eq_true, if_neg, not_false_iff,
                fetchBroadcastDetails_trace, fetchEmailDetails_trace,
                spacedGo_append, hcs, Option.bind_some]
              exact ih emails

lemma spacedGo_storeWithHtml (u : Upstream) (td : String → String) :
    ∀ (bcs : List Broadcast),
      spacedGo false (fetchAndStoreBroadcastsWithHtml u td bcs).2 =
        some false := by
  intro bcs
  induction bcs with
  | nil => rfl
  | cons b rest ih =>
    have hcs : spacedGo false [Ev.call, Ev.sleepEv 500] = some false := rfl
    simp only [fetchAndStoreBroadcastsWithHtml]
    rcases hd : (fetchBroadcastDetails u b.id).1 with _ | d
    · simp only [hd, fetchBroadcastDetails_trace, spacedGo_append, hcs,
        Option.bind_some]
      exact ih
    · simp only [hd]
      rcases hh : d.html with _ | h
      · simp only [hh, fetchBroadcastDetails_trace, spacedGo_append, hcs,
          Option.bind_some]
        exact ih
      · simp only [hh]
        by_cases hemp : h.isEmpty
        · simp only [hemp, if_pos, fetchBroadcastDetails_trace,
            spacedGo_append, hcs, Option.bind_some]
          exact ih
        · simp only [hemp, Bool.false_eq_true, if_neg, not_false_iff,
            fetchBroadcastDetails_trace, spacedGo_append, hcs,
            Option.bind_some]
          exact ih

lemma spacedGo_emailsLoop (u : Upstream)
    (hne : ∀ c, (u.emailPage c).data ≠ []) :
    ∀ (fuel : Nat) (lid c : Option String) (acc : List Email)
      (r : Except String (List Email)) (tr : List Ev),
      emailsLoop u lid fuel c acc = some (r, tr) →
      (∀ N, r = Except.ok N → spacedGo false tr = some false) ∧
      (∀ m, r = Except.error m → spacedGo false tr = some true) := by
  intro fuel
  induction fuel with
  | zero => intro lid c acc r tr h; cases h
  | succ fuel ih =>
    intro lid c acc r tr h
    rw [emailsLoop] at h
    by_cases hok : u.emailsOk c = true
    · rw [hok] at h
      simp only [if_true] at h
      rcases hd : (u.emailPage c).data with _ | ⟨e, es⟩
      · exact absurd hd (hne c)
      · simp only [hd] at h
        by_cases hlid : lid.isSome
        · simp only [hlid, if_true] at h
          injection h with h
          injection h with h1 h2
          constructor
          · intro N hN
            rw [← h2]; rfl
          · intro m hm
            rw [← h1] at hm
            cases hm
        · simp only [hlid, Bool.false_eq_true, if_false, if_neg] at h
          by_cases hm : (u.emailPage c).has_more
          · simp only [hm, if_true] at h
            rcases hrec : emailsLoop u lid fuel
                (some ((e :: es).getLast (List.cons_ne_nil e es)).id)
                (acc ++ (e :: es)) with _ | ⟨r2, tr2⟩
            · rw [hrec] at h
              cases h
            · rw [hrec] at h
              injection h with h
              injection h with h1 h2
              obtain ⟨hokk, herr⟩ := ih lid _ _ r2 tr2 hrec
              constructor
              · intro N hN
                rw [← h2, spacedGo_append]
                exact hokk N (by rw [h1, hN])
              · intro m hmm
                rw [← h2, spacedGo_append]
                exact herr m (by rw [h1, hmm])
          · simp only [hm, Bool.false_eq_true, if_false, if_neg] at h
            injection h with h
            injection h with h1 h2
            constructor
            · intro N hN
              rw [← h2]; rfl
            · intro m hmm
              rw [← h1] at hmm
              cases hmm
    · have hok2 : u.emailsOk c = false := Bool.not_eq_true _ ▸ hok
      rw [hok2] at h
      simp only [Bool.false_eq_true, if_false, if_neg] at h
      injection h with h
      injection h with h1 h2
      constructor
      · intro N hN
        rw [← h1] at hN
        cases hN
      · intro m hmm
        rw [← h2]; rfl

/-- C2 (amended).  Rate-limit spacing as the code actually implements it:
every detail call (broadcast or email details) is followed by the 500ms
delay even when it fails; a failed audiences fetch is not followed by a
delay but aborts the run, making it the run's final upstream call; and in
any run in which no email page comes back empty, any two consecutive
upstream calls of the run's trace are separated by a `sleep(500)`. -/
theorem rate_limit_c2_amended (u : Upstream) (i : String) (env : Env)
    (authHeader : Option String) (td : String → String) (fuel : Nat)
    (store0 : Store) :
    (fetchBroadcastDetails u i).2 = [Ev.call, Ev.sleepEv 500] ∧
    (fetchEmailDetails u i).2 = [Ev.call, Ev.sleepEv 500] ∧
    (authOk env authHeader = true →
      (truthy env.apiKey && truthy env.audienceId) = true →
      u.audiencesOk = false →
      runCron env authHeader u td fuel store0 =
        some (SyncResult.failure "Failed to fetch audiences", [],
          [Ev.call])) ∧
    (∀ r w tr, (∀ c, (u.emailPage c).data ≠ []) →
      runCron env authHeader u td fuel store0 = some (r, w, tr) →
      okSpacing tr = true) := by
  refine ⟨fetchBroadcastDetails_trace u i, fetchEmailDetails_trace u i,
    ?_, ?_⟩
  · intro ha hc haud
    rw [runCron, ha]
    simp only [Bool.not_true, Bool.false_eq_true, if_false]
    rw [hc]
    simp only [Bool.not_true, Bool.false_eq_true, if_false]
    rw [fetchAudiences, haud]
    simp only [Bool.false_eq_true, if_false, if_neg]
  · intro r w tr hne h
    by_cases ha : authOk env authHeader = true
    case neg =>
      have haf : authOk env authHeader = false := Bool.not_eq_true _ ▸ ha
      rw [runCron, haf] at h
      simp only [Bool.not_false, if_true, Option.some.injEq,
        Prod.mk.injEq] at h
      rw [← h.2.2]
      rfl
    case pos =>
    rw [runCron, ha] at h
    simp only [Bool.not_true, Bool.false_eq_true, if_false] at h
    by_cases hc : (truthy env.apiKey && truthy env.audienceId) = true
    case neg =>
      have hcf : (truthy env.apiKey && truthy env.audienceId) = false :=
        Bool.not_eq_true _ ▸ hc
      rw [hcf] at h
      simp only [Bool.not_false, if_true, Option.some.injEq,
        Prod.mk.injEq] at h
      rw [← h.2.2]
      rfl
    case pos =>
    rw [hc] at h
    simp only [Bool.not_true, Bool.false_eq_true, if_false] at h
    by_cases haud : u.audiencesOk = true
    case neg =>
      have hf : u.audiencesOk = false := Bool.not_eq_true _ ▸ haud
      rw [fetchAudiences, hf] at h
      simp only [Bool.false_eq_true, if_false, if_neg, Option.some.injEq,
        Prod.mk.injEq] at h
      rw [← h.2.2]
      rfl
    case pos =>
    rw [fetchAudiences, haud] at h
    simp only [if_true] at h
    by_cases hbc : u.broadcastsOk = true
    case neg =>
      have hf : u.broadcastsOk = false := Bool.not_eq_true _ ▸ hbc
      rw [fetchBroadcasts, hf] at h
      simp only [Bool.false_eq_true, if_false, if_neg, Option.some.injEq,
        Prod.mk.injEq] at h
      rw [← h.2.2]
      rfl
    case pos =>
    rw [fetchBroadcasts, hbc] at h
    simp only [if_true] at h
    rcases hE : fetchEmailsInc u fuel
        (putList store0 (audWrites u.audiences ++
          bcWrites (u.broadcasts.filter
            (fun b => b.audience_id == envStr env.audienceId)))) with _ | ⟨eE, trE⟩
    · rw [hE] at h
      cases h
    · have hloop := hE
      rw [fetchEmailsInc] at hloop
      rw [hE] at h
      cases eE with
      | error m =>
        simp only [Option.some.injEq, Prod.mk.injEq] at h
        have htrE : spacedGo false trE = some true := by
          rcases hL : emailsLoop u
              (storedCursor (putList store0 (audWrites u.audiences ++
                bcWrites (u.broadcasts.filter
                  (fun b => b.audience_id == envStr env.audienceId)))))
              fuel
              (storedCursor (putList store0 (audWrites u.audiences ++
                bcWrites (u.broadcasts.filter
                  (fun b => b.audience_id == envStr env.audienceId)))))
              [] with _ | ⟨r2, tr2⟩
          · rw [hL] at hloop; cases hloop
          · rw [hL] at hloop
            cases r2 with
            | error m2 =>
              simp only [Option.some.injEq, Prod.mk.injEq,
                Except.error.injEq] at hloop
              have := (spacedGo_emailsLoop u hne fuel _ _ _ _ _ hL).2 m2 rfl
              rw [← hloop.2]
              exact this
            | ok N => simp at hloop
        rw [← h.2.2, okSpacing, spacedGo_append, spacedGo_append]
        have h1 : spacedGo false [Ev.call, Ev.sleepEv 500] = some false := rfl
        rw [h1]
        show (spacedGo false trE).isSome = true
        rw [htrE]
        rfl
      | ok pr =>
        rcases pr with ⟨newEmails, allEmails⟩
        simp only [Option.some.injEq, Prod.mk.injEq] at h
        have htrE : spacedGo false trE = some false := by
          rcases hL : emailsLoop u
              (storedCursor (putList store0 (audWrites u.audiences ++
                bcWrites (u.broadcasts.filter
                  (fun b => b.audience_id == envStr env.audienceId)))))
              fuel
              (storedCursor (putList store0 (audWrites u.audiences ++
                bcWrites (u.broadcasts.filter
                  (fun b => b.audience_id == envStr env.audienceId)))))
              [] with _ | ⟨r2, tr2⟩
          · rw [hL] at hloop; cases hloop
          · rw [hL] at hloop
            cases r2 with
            | error m2 => simp at hloop
            | ok N =>
              simp only [Option.some.injEq, Prod.mk.injEq,
                Except.ok.injEq] at hloop
              have := (spacedGo_emailsLoop u hne fuel _ _ _ _ _ hL).1 N rfl
              rw [← hloop.2]
              exact this
        rw [← h.2.2, okSpacing, spacedGo_append, spacedGo_append,
          spacedGo_append]
        have h1 : spacedGo false [Ev.call, Ev.sleepEv 500] = some false := rfl
        rw [h1]
        show ((spacedGo false trE).bind _).isSome = true
        rw [htrE]
        show (spacedGo false (matchAndStore u td _ newEmails).2).isSome = true
        rw [spacedGo_matchAndStore]
        rfl

/-- Upstream used to refute the claimed spacing: the email page is empty, so
the email call is not followed by a sleep, yet the enrichment call for the
single broadcast follows immediately. -/
def uC2bad : Upstream where
  audiencesOk := true
  audiences := []
  broadcastsOk := true
  broadcasts := [{ id := "b1", audience_id := "aud" }]
  emailsOk := fun _ => true
  emailPage := fun _ => { data := [], has_more := false }
  broadcastDetail := fun _ => none
  emailDetail := fun _ => none

/-- Upstream whose audiences fetch returns non-2xx. -/
def uC2fail : Upstream where
  audiencesOk := false
  audiences := []
  broadcastsOk := true
  broadcasts := []
  emailsOk := fun _ => true
  emailPage := fun _ => { data := [], has_more := false }
  broadcastDetail := fun _ => none
  emailDetail := fun _ => none

/-- Counterexample to C2 as stated: a concrete successful sync run whose
trace contains two consecutive upstream calls with no delay between them
(the empty email page call followed by the broadcast-detail call), and a
failed audiences call whose trace ends with no delay after the call. -/
theorem rate_limit_c2_counterexample :
    (runCron
      { cronSecret := some "s", apiKey := some "k", audienceId := some "aud" }
      (some "Bearer s") uC2bad id 1 emptyStore).map
        (fun o => okSpacing o.2.2) = some false ∧
    (fetchAudiences uC2fail).2 = [Ev.call] := by
  constructor
  · decide
  · decide

/-- Upstream used to witness the amended C2: every email page is non-empty
and the incremental fetch is anchored at the stored cursor. -/
def uC2w : Upstream where
  audiencesOk := true
  audiences := []
  broadcastsOk := true
  broadcasts := []
  emailsOk := fun _ => true
  emailPage := fun _ => { data := [e2C1], has_more := false }
  broadcastDetail := fun _ => none
  emailDetail := fun _ => none

/-- Witness for the amended C2: a concrete run with non-empty pages whose
trace satisfies the spacing predicate, obtained from the amended theorem. -/
theorem rate_limit_c2_amended_witness :
    okSpacing [Ev.call, Ev.sleepEv 500, Ev.call, Ev.sleepEv 500, Ev.call,
      Ev.sleepEv 500] = true :=
  (rate_limit_c2_amended uC2w "x"
    { cronSecret := some "s", apiKey := some "k", audienceId := some "aud" }
    (some "Bearer s") id 2 store0C1).2.2.2
    (SyncResult.success 0 0 1 2) wC1
    [Ev.call, Ev.sleepEv 500, Ev.call, Ev.sleepEv 500, Ev.call,
      Ev.sleepEv 500]
    (fun c => by simp [uC2w]) (by decide)

/-! ## C6: idempotence of a repeated sync -/

lemma lastW_mem {w : List (String × BlobVal)} {k : String} {v : BlobVal}
    (h : lastW w k = some v) : ∃ p ∈ w, p.1 = k ∧ p.2 = v := by
  rcases hf : w.reverse.find? (fun p => p.1 == k) with _ | q
  · rw [lastW, hf] at h
    cases h
  · rw [lastW, hf, Option.map_some'] at h
    injection h with h
    have hq1 : (q.1 == k) = true := by
      have := List.find?_some hf
      simpa using this
    exact ⟨q, List.mem_reverse.mp (List.mem_of_find?_eq_some hf),
      beq_iff_eq.mp hq1, h⟩

lemma emKey_ne_bcKey (x y : String) : emKey x ≠ bcKey y :=
  append_ne_append "rss_email_" x "rss_broadcast_" y 5 (by decide) (by decide)
    (by decide)

lemma emKey_ne_audKey (x y : String) : emKey x ≠ audKey y :=
  append_ne_append "rss_email_" x "rss_audience_" y 5 (by decide) (by decide)
    (by decide)

lemma infoKey_ne_audKey (x y : String) : infoKey x ≠ audKey y := by
  rw [infoKey_as_append]
  exact append_ne_append "rss_broadcast_" _ "rss_audience_" y 5 (by decide)
    (by decide) (by decide)

lemma mdKey_ne_audKey (x y : String) : mdKey x ≠ audKey y := by
  rw [mdKey_as_append]
  exact append_ne_append "rss_broadcast_" _ "rss_audience_" y 5 (by decide)
    (by decide) (by decide)

lemma correlate_nil (d : Broadcast) : correlate d [] = none := by
  rw [correlate]
  cases d.subject <;> cases d.fromAddr <;> simp [findMatch]

lemma matchAndStore_nil_emails (u : Upstream) (td : String → String) :
    ∀ bcs : List Broadcast, (matchAndStore u td bcs []).1 = [] := by
  intro bcs
  induction bcs with
  | nil => rfl
  | cons b rest ih =>
    simp only [matchAndStore]
    rcases hd : (fetchBroadcastDetails u b.id).1 with _ | d
    · simp only [hd]
      exact ih
    · simp only [hd, correlate_nil]
      exact ih

lemma option_or_none {α : Type} (o : Option α) : o.or none = o := by
  cases o <;> rfl

/-- C6 (amended).  Idempotence.  Current variant: its writes depend only on
the upstream, so re-applying a run's writes leaves the store unchanged,
unconditionally.  Historical variant: a first successful run from the empty
store, re-run against the same (unchanged) upstream snapshot — no email
newer than the stored cursor, expressed as the page anchored at the stored
head being empty — leaves every persisted key byte-identical, provided no
per-broadcast summary key `rss_broadcast_<id>` aliases another broadcast's
info keys (no id equal to another id ++ "_info"/"_info_md").  The proviso
is necessary: with aliasing ids the flat key schema makes the second run
genuinely differ (see the C6 counterexample). -/
theorem sync_idempotent_c6 :
    (∀ (env : Env) (authHeader : Option String) (u : Upstream)
        (td : String → String) (s : Store),
      putList (putList s (runCronCurrent env authHeader u td).2.1)
          (runCronCurrent env authHeader u td).2.1 =
        putList s (runCronCurrent env authHeader u td).2.1) ∧
    (∀ (env : Env) (authHeader : Option String) (u : Upstream)
        (td : String → String) (fuel : Nat) (a b n t a2 b2 n2 t2 : Nat)
        (w1 w2 : List (String × BlobVal)) (tr1 tr2 : List Ev),
      runCron env authHeader u td fuel emptyStore =
        some (SyncResult.success a b n t, w1, tr1) →
      runCron env authHeader u td fuel (putList emptyStore w1) =
        some (SyncResult.success a2 b2 n2 t2, w2, tr2) →
      (∀ e rest, storedEmails (putList emptyStore w1) = e :: rest →
        u.emailsOk (some e.id) = true ∧
          (u.emailPage (some e.id)).data = []) →
      (∀ b1 bb,
        b1 ∈ u.broadcasts.filter
          (fun x => x.audience_id == envStr env.audienceId) →
        bb ∈ u.broadcasts.filter
          (fun x => x.audience_id == envStr env.audienceId) →
        bcKey b1.id ≠ infoKey bb.id ∧ bcKey b1.id ≠ mdKey bb.id) →
      putList (putList emptyStore w1) w2 = putList emptyStore w1) := by
  constructor
  · intro env authHeader u td s
    exact putList_self s _
  · intro env authHeader u td fuel a b n t a2 b2 n2 t2 w1 w2 tr1 tr2
      h1 h2 hsnap hcol
    obtain ⟨ha, hc, haud, hbc, N, A, trE, hE1, hall1, hw1, -⟩ :=
      runCron_success_shape env authHeader u td fuel emptyStore
        a b n t w1 tr1 h1
    obtain ⟨-, -, -, -, N2, A2, trE2, hE2, hall2, hw2, -⟩ :=
      runCron_success_shape env authHeader u td fuel (putList emptyStore w1)
        a2 b2 n2 t2 w2 tr2 h2
    have hmid1em : storedEmails (putList emptyStore (audWrites u.audiences ++
        bcWrites (u.broadcasts.filter
          (fun x => x.audience_id == envStr env.audienceId)))) = [] := by
      rw [storeMid_emails]
      rfl
    have hmid1cur : storedCursor (putList emptyStore (audWrites u.audiences ++
        bcWrites (u.broadcasts.filter
          (fun x => x.audience_id == envStr env.audienceId)))) = none := by
      rw [storeMid_cursor]
      rfl
    have hAN : A = N := by
      rw [hall1, hmid1em, List.append_nil]
    have hM1em : lastW ((matchAndStore u td
        (u.broadcasts.filter
          (fun x => x.audience_id == envStr env.audienceId)) N).1)
        "rss_emails" = none :=
      lastW_matchAndStore_ne u td _ N _ (fun x => infoKey_ne_emCol x)
        (fun x => mdKey_ne_emCol x)
    have hM1cur : lastW ((matchAndStore u td
        (u.broadcasts.filter
          (fun x => x.audience_id == envStr env.audienceId)) N).1)
        "rss_last_email_id" = none :=
      lastW_matchAndStore_ne u td _ N _ (fun x => infoKey_ne_curCol x)
        (fun x => mdKey_ne_curCol x)
    have hst1em : putList emptyStore w1 "rss_emails" =
        some (BlobVal.emails A) := by
      rw [hw1, putList_apply, lastW_append, lastW_append, hM1em,
        lastW_emailWrites_emails]
      simp [Option.or]
    have habcur : lastW (audWrites u.audiences ++
        bcWrites (u.broadcasts.filter
          (fun x => x.audience_id == envStr env.audienceId)))
        "rss_last_email_id" = none :=
      lastW_audbc_ne u.audiences _ _ (by decide)
        (fun x => audKey_ne_curCol x) (by decide)
        (fun x => bcKey_ne_curCol x)
    have hst1cur : putList emptyStore w1 "rss_last_email_id" =
        A.head?.map (fun e => BlobVal.text e.id) := by
      rw [hw1, putList_apply, lastW_append, lastW_append, hM1cur,
        lastW_emailWrites_cursor, habcur]
      rcases ho : A.head? with _ | e <;> rfl
    have hst1emS : storedEmails (putList emptyStore w1) = A := by
      rw [storedEmails, readB, hst1em]
    have hst1curS : storedCursor (putList emptyStore w1) =
        A.head?.map (fun e => e.id) := by
      rw [storedCursor, readB, hst1cur]
      rcases ho : A.head? with _ | e <;> rfl
    have hmid2cur : storedCursor (putList (putList emptyStore w1)
        (audWrites u.audiences ++ bcWrites (u.broadcasts.filter
          (fun x => x.audience_id == envStr env.audienceId)))) =
        storedCursor (putList emptyStore w1) := storeMid_cursor _ _ _
    have hmid2em : storedEmails (putList (putList emptyStore w1)
        (audWrites u.audiences ++ bcWrites (u.broadcasts.filter
          (fun x => x.audience_id == envStr env.audienceId)))) =
        storedEmails (putList emptyStore w1) := storeMid_emails _ _ _
    have hN2A2 : N2 = [] ∧ A2 = A := by
      rw [fetchEmailsInc, hmid2cur, hst1curS] at hE2
      cases hAcase : A with
      | nil =>
        rw [hAcase] at hE2
        simp only [List.head?_nil, Option.map_none'] at hE2
        have hcur1 : storedCursor (putList emptyStore (audWrites u.audiences ++
            bcWrites (u.broadcasts.filter
              (fun x => x.audience_id == envStr env.audienceId)))) = none :=
          hmid1cur
        rw [fetchEmailsInc, hcur1] at hE1
        rcases hL1 : emailsLoop u none fuel none [] with _ | ⟨r1, trL1⟩
        · rw [hL1] at hE1
          cases hE1
        · rw [hL1] at hE1
          cases r1 with
          | error m => simp at hE1
          | ok NN =>
            simp only [Option.some.injEq, Prod.mk.injEq,
              Except.ok.injEq] at hE1
            have hNN : NN = N := hE1.1.1
            have hNnil : N = [] := by rw [← hAN, hAcase]
            simp only [hL1, hNN, hNnil] at hE2
            rw [hmid2em, hst1emS, hAcase] at hE2
            simp only [Option.some.injEq, Prod.mk.injEq,
              Except.ok.injEq] at hE2
            refine ⟨hE2.1.1.symm, ?_⟩
            have hA2' : A2 = [] := hE2.1.2.symm
            rw [hA2']
      | cons e rest =>
        obtain ⟨hok, hpage⟩ := hsnap e rest (by rw [hst1emS, hAcase])
        cases fuel with
        | zero =>
          rw [fetchEmailsInc] at hE1
          simp only [emailsLoop] at hE1
          cases hE1
        | succ f =>
          rw [hAcase] at hE2
          simp only [List.head?_cons, Option.map_some'] at hE2
          rw [emailsLoop, hok] at hE2
          simp only [if_true, hpage] at hE2
          rw [hmid2em, hst1emS] at hE2
          simp only [Option.some.injEq, Prod.mk.injEq,
            Except.ok.injEq] at hE2
          have hA2' : A2 = A := hE2.1.2.symm
          rw [hA2']
          exact ⟨hE2.1.1.symm, hAcase⟩
    obtain ⟨hN2, hA2⟩ := hN2A2
    rw [hN2, hA2, matchAndStore_nil_emails] at hw2
    funext k
    rw [putList_apply]
    cases hk : lastW w2 k with
    | none => simp [Option.or]
    | some v =>
      have hst1k : putList emptyStore w1 k = some v := by
        rw [hw2, lastW_append, lastW_append, lastW_nil] at hk
        rcases hE2k : lastW (emailWrites [] A) k with _ | v0
        · rw [hE2k] at hk
          have hab : lastW (audWrites u.audiences ++
              bcWrites (u.broadcasts.filter
                (fun x => x.audience_id == envStr env.audienceId))) k =
              some v := hk
          obtain ⟨p, hp, hpk, -⟩ := lastW_mem hab
          have hkcases : k = "rss_audiences" ∨
              (∃ x ∈ u.audiences, k = audKey x.id) ∨
              k = "rss_broadcasts" ∨
              (∃ x ∈ u.broadcasts.filter
                (fun y => y.audience_id == envStr env.audienceId),
                k = bcKey x.id) := by
            rcases List.mem_append.mp hp with hp2 | hp2
            · rcases audWrites_keys u.audiences p hp2 with hq | ⟨x, hx, hq⟩
              · exact Or.inl (by rw [← hpk, hq])
              · exact Or.inr (Or.inl ⟨x, hx, by rw [← hpk, hq]⟩)
            · rcases bcWrites_keys _ p hp2 with hq | ⟨x, hx, hq⟩
              · exact Or.inr (Or.inr (Or.inl (by rw [← hpk, hq])))
              · exact Or.inr (Or.inr (Or.inr ⟨x, hx, by rw [← hpk, hq]⟩))
          have hM1k : lastW ((matchAndStore u td
              (u.broadcasts.filter
                (fun x => x.audience_id == envStr env.audienceId)) N).1)
              k = none := by
            apply lastW_eq_none
            intro q hq
            obtain ⟨bb, hbb, ho⟩ := matchAndStore_keys u td _ N q hq
            rcases hkcases with hkc | ⟨x, -, hkc⟩ | hkc | ⟨x, hx, hkc⟩
            · rcases ho with ho | ho
              · rw [ho, hkc]; exact infoKey_ne_audCol bb.id
              · rw [ho, hkc]; exact mdKey_ne_audCol bb.id
            · rcases ho with ho | ho
              · rw [ho, hkc]; exact infoKey_ne_audKey bb.id x.id
              · rw [ho, hkc]; exact mdKey_ne_audKey bb.id x.id
            · rcases ho with ho | ho
              · rw [ho, hkc]; exact infoKey_ne_bcCol bb.id
              · rw [ho, hkc]; exact mdKey_ne_bcCol bb.id
            · rcases ho with ho | ho
              · rw [ho, hkc]
                exact fun he => (hcol x bb hx hbb).1 he.symm
              · rw [ho, hkc]
                exact fun he => (hcol x bb hx hbb).2 he.symm
          have hE1k : lastW (emailWrites N A) k = none := by
            apply lastW_eq_none
            intro q hq
            rcases emailWrites_keys N A q hq with hq1 | ⟨e, -, hq1⟩ | hq1
            · rcases hkcases with hkc | ⟨x, -, hkc⟩ | hkc | ⟨x, -, hkc⟩
              · rw [hq1, hkc]; decide
              · rw [hq1, hkc]
                exact fun he => audKey_ne_emCol x.id he.symm
              · rw [hq1, hkc]; decide
              · rw [hq1, hkc]
                exact fun he => bcKey_ne_emCol x.id he.symm
            · rcases hkcases with hkc | ⟨x, -, hkc⟩ | hkc | ⟨x, -, hkc⟩
              · rw [hq1, hkc]; exact emKey_ne_audCol e.id
              · rw [hq1, hkc]; exact emKey_ne_audKey e.id x.id
              · rw [hq1, hkc]; exact emKey_ne_bcCol e.id
              · rw [hq1, hkc]; exact emKey_ne_bcKey e.id x.id
            · rcases hkcases with hkc | ⟨x, -, hkc⟩ | hkc | ⟨x, -, hkc⟩
              · rw [hq1, hkc]; decide
              · rw [hq1, hkc]
                exact fun he => audKey_ne_curCol x.id he.symm
              · rw [hq1, hkc]; decide
              · rw [hq1, hkc]
                exact fun he => bcKey_ne_curCol x.id he.symm
          rw [hw1, putList_apply, lastW_append, lastW_append, hM1k, hE1k,
            hab]
          rfl
        · rw [hE2k] at hk
          have hvv : v0 = v := by
            have hk2 : (some v0 : Option BlobVal) = some v := hk
            injection hk2
          obtain ⟨p, hp, hpk, -⟩ := lastW_mem hE2k
          rcases emailWrites_keys [] A p hp with hp1 | ⟨e, he, -⟩ | hp1
          · have hkem : k = "rss_emails" := by rw [← hpk, hp1]
            rw [hkem] at hE2k
            rw [lastW_emailWrites_emails] at hE2k
            injection hE2k with hE2k
            rw [hkem, hst1em, hE2k, hvv]
          · simp at he
          · have hkcur : k = "rss_last_email_id" := by rw [← hpk, hp1]
            rw [hkcur] at hE2k
            rw [lastW_emailWrites_cursor] at hE2k
            rw [hkcur, hst1cur, hE2k, hvv]
      rw [hst1k]
      rfl

/-- Upstream used to witness C6: one email on the first page, nothing newer
than it afterwards (an unchanged snapshot). -/
def uC6 : Upstream where
  audiencesOk := true
  audiences := []
  broadcastsOk := true
  broadcasts := []
  emailsOk := fun _ => true
  emailPage := fun c =>
    match c with
    | none => { data := [e1C1], has_more := false }
    | some _ => { data := [], has_more := false }
  broadcastDetail := fun _ => none
  emailDetail := fun _ => none

/-- Writes of the first witness run for C6. -/
def w1C6 : List (String × BlobVal) :=
  [("rss_audiences", BlobVal.audiences []),
   ("rss_broadcasts", BlobVal.broadcasts []),
   ("rss_emails", BlobVal.emails [e1C1]),
   ("rss_email_e1", BlobVal.email e1C1),
   ("rss_last_email_id", BlobVal.text "e1")]

/-- Writes of the second witness run for C6. -/
def w2C6 : List (String × BlobVal) :=
  [("rss_audiences", BlobVal.audiences []),
   ("rss_broadcasts", BlobVal.broadcasts []),
   ("rss_emails", BlobVal.emails [e1C1]),
   ("rss_last_email_id", BlobVal.text "e1")]

/-- Witness for C6: on the concrete unchanged snapshot the second run's
writes leave the store of the first run byte-identical. -/
theorem sync_idempotent_c6_witness :
    putList (putList emptyStore w1C6) w2C6 = putList emptyStore w1C6 :=
  sync_idempotent_c6.2
    { cronSecret := some "s", apiKey := some "k", audienceId := some "aud" }
    (some "Bearer s") uC6 id 1 0 0 1 1 0 0 0 1 w1C6 w2C6
    [Ev.call, Ev.sleepEv 500, Ev.call, Ev.sleepEv 500, Ev.call, Ev.sleepEv 500]
    [Ev.call, Ev.sleepEv 500, Ev.call, Ev.sleepEv 500, Ev.call]
    (by decide) (by decide)
    (by
      intro e rest h
      have h2 : [e1C1] = e :: rest := h
      injection h2 with h3 h4
      cases h3
      cases h4
      decide)
    (by
      intro b1 bb hb1 hbb
      exact absurd hb1 (List.not_mem_nil b1))

/-- Broadcast "7" of the C6 counterexample scenario. -/
def b7C6 : Broadcast := { id := "7", audience_id := "aud" }

/-- Broadcast "7_info" of the C6 counterexample scenario: its per-id summary
key "rss_broadcast_7_info" is the same blob pathname as broadcast "7"'s
enrichment info key. -/
def b7iC6 : Broadcast := { id := "7_info", audience_id := "aud" }

/-- Details of broadcast "7" in the C6 counterexample scenario. -/
def d7C6 : Broadcast :=
  { id := "7", audience_id := "aud", subject := some "S",
    fromAddr := some "F" }

/-- The sent email matched to broadcast "7" in the C6 counterexample. -/
def eMC6 : Email := { id := "m1", fromAddr := "F", subject := "S" }

/-- Upstream snapshot of the C6 counterexample: two broadcasts with aliasing
ids, one matching email, and nothing newer than the stored cursor. -/
def uC6x : Upstream where
  audiencesOk := true
  audiences := []
  broadcastsOk := true
  broadcasts := [b7C6, b7iC6]
  emailsOk := fun _ => true
  emailPage := fun c =>
    match c with
    | none => { data := [eMC6], has_more := false }
    | some _ => { data := [], has_more := false }
  broadcastDetail := fun i => if i = "7" then some d7C6 else none
  emailDetail := fun i =>
    if i = "m1" then
      some { id := "m1", fromAddr := "F", subject := "S",
             html := some "<p>x</p>" }
    else none

/-- Writes of the first run in the C6 counterexample: the enrichment blob
for broadcast "7" lands on "rss_broadcast_7_info" last. -/
def w1C6x : List (String × BlobVal) :=
  [("rss_audiences", BlobVal.audiences []),
   ("rss_broadcasts", BlobVal.broadcasts [b7C6, b7iC6]),
   ("rss_broadcast_7", BlobVal.broadcast b7C6),
   ("rss_broadcast_7_info", BlobVal.broadcast b7iC6),
   ("rss_emails", BlobVal.emails [eMC6]),
   ("rss_email_m1", BlobVal.email eMC6),
   ("rss_last_email_id", BlobVal.text "m1"),
   ("rss_broadcast_7_info", BlobVal.info d7C6 "<p>x</p>"),
   ("rss_broadcast_7_info_md", BlobVal.infoMd d7C6 "<p>x</p>")]

/-- Writes of the second run in the C6 counterexample: no new emails, so
`matchAndStore` rewrites nothing, while the step-2 summary write of
broadcast "7_info" clobbers "rss_broadcast_7_info". -/
def w2C6x : List (String × BlobVal) :=
  [("rss_audiences", BlobVal.audiences []),
   ("rss_broadcasts", BlobVal.broadcasts [b7C6, b7iC6]),
   ("rss_broadcast_7", BlobVal.broadcast b7C6),
   ("rss_broadcast_7_info", BlobVal.broadcast b7iC6),
   ("rss_emails", BlobVal.emails [eMC6]),
   ("rss_last_email_id", BlobVal.text "m1")]

/-- Counterexample to C6 as stated.  Against the unchanged upstream `uC6x`
(whose broadcast ids "7" and "7_info" make the per-id summary key of the
latter alias the info key of the former), both the first run from the empty
store and the immediate re-run complete successfully, yet the blob stored
under "rss_broadcast_7_info" differs between the two final stores: run one
leaves broadcast "7"'s enrichment blob there, run two overwrites it with
broadcast "7_info"'s summary record while its `matchAndStore` — seeing no
new emails — writes nothing back.  The re-run is therefore not a no-op in
effect on storage. -/
theorem sync_idempotent_c6_counterexample :
    runCron
      { cronSecret := some "s", apiKey := some "k", audienceId := some "aud" }
      (some "Bearer s") uC6x id 1 emptyStore =
      some (SyncResult.success 0 2 1 1, w1C6x,
        [Ev.call, Ev.sleepEv 500, Ev.call, Ev.sleepEv 500, Ev.call,
         Ev.sleepEv 500, Ev.call, Ev.sleepEv 500, Ev.call, Ev.sleepEv 500,
         Ev.call, Ev.sleepEv 500]) ∧
    runCron
      { cronSecret := some "s", apiKey := some "k", audienceId := some "aud" }
      (some "Bearer s") uC6x id 1 (putList emptyStore w1C6x) =
      some (SyncResult.success 0 2 0 1, w2C6x,
        [Ev.call, Ev.sleepEv 500, Ev.call, Ev.sleepEv 500, Ev.call,
         Ev.call, Ev.sleepEv 500, Ev.call, Ev.sleepEv 500]) ∧
    putList emptyStore w1C6x "rss_broadcast_7_info" =
      some (BlobVal.info d7C6 "<p>x</p>") ∧
    putList (putList emptyStore w1C6x) w2C6x "rss_broadcast_7_info" =
      some (BlobVal.broadcast b7iC6) ∧
    putList (putList emptyStore w1C6x) w2C6x "rss_broadcast_7_info" ≠
      putList emptyStore w1C6x "rss_broadcast_7_info" := by
  refine ⟨by decide, by decide, by decide, by decide, by decide⟩
